import Mathlib

/-!
# IntervalItem (GoldenCheetah) : a shallow embedding of `src/IntervalItem.cpp`

The development embeds the non-GUI part of `IntervalItem.cpp` (the two
constructors, `setFrom`, `setValues`, `refresh`, `getForSymbol` and
`getStringForSymbol`) and proves properties of it.

Conventions of the embedding.

* A C++ `double` is a value of `Dbl`: not-a-number, the two infinities, or a
  finite value carried as a rational.  Comparisons follow IEEE-754 (every
  comparison with NaN is false).  The one arithmetic operation of the embedded
  code, the sum `p->secs + f->recIntSecs()`, is the exact sum rounded to the
  nearest binary64 value, ties to even, overflowing to an infinity
  (`Dbl.roundToDouble`); signed zeros are not distinguished, which no
  comparison can observe.
* A pointer is an `Option Nat`: `none` is `NULL`, `some a` is the address `a` of
  an object in the matching heap of `World`.  Dereferencing `NULL` or an
  address outside its heap, and indexing a `QVector` out of range, are
  undefined behaviour in the source; the embedding returns `none` there.
* A `QVector<T>` is a `List T`.
-/

namespace GoldenCheetah

/-! ## Doubles -/

/-- A C++ `double`: NaN, minus infinity, a finite value, plus infinity. -/
inductive Dbl where
  | nan : Dbl
  | ninf : Dbl
  | fin (q : ℚ) : Dbl
  | pinf : Dbl
deriving DecidableEq

namespace Dbl

instance : Inhabited Dbl := ⟨fin 0⟩

/-- The literal `0` / `0.0f` converted to `double`. -/
def zero : Dbl := fin 0

/-- `std::isnan`. -/
def isnan : Dbl → Bool
  | nan => true
  | _ => false

/-- `std::isinf`. -/
def isinf : Dbl → Bool
  | ninf => true
  | pinf => true
  | _ => false

/-- A value that is neither NaN nor infinite. -/
def isFinite (x : Dbl) : Bool := !(x.isinf || x.isnan)

/-- The C++ operator `<` on doubles. -/
def lt : Dbl → Dbl → Bool
  | nan, _ => false
  | _, nan => false
  | ninf, ninf => false
  | ninf, _ => true
  | _, ninf => false
  | pinf, _ => false
  | fin _, pinf => true
  | fin a, fin b => decide (a < b)

/-- The C++ operator `<=` on doubles. -/
def le : Dbl → Dbl → Bool
  | nan, _ => false
  | _, nan => false
  | ninf, _ => true
  | _, ninf => false
  | _, pinf => true
  | pinf, fin _ => false
  | fin a, fin b => decide (a ≤ b)

/-- The C++ operator `>` on doubles. -/
def gt (a b : Dbl) : Bool := lt b a

/-- The C++ operator `>=` on doubles. -/
def ge (a b : Dbl) : Bool := le b a

/-- Position of the leading binary digit of `n` (the largest `k` with
`2 ^ k <= n`), found by halving at most `fuel` times; 0 for `n < 2`. -/
def log2Fuel : Nat → Nat → Nat
  | 0, _ => 0
  | fuel + 1, n => if n < 2 then 0 else log2Fuel fuel (n / 2) + 1

/-- The integer `L` with `2 ^ L <= q < 2 ^ (L + 1)`, for a positive rational
`q`: the difference of the leading digit positions of numerator and
denominator, or one less. -/
def floorLog2 (q : ℚ) : ℤ :=
  if (2 : ℚ) ^ ((log2Fuel q.num.toNat q.num.toNat : ℤ) - (log2Fuel q.den q.den : ℤ)) ≤ q then
    (log2Fuel q.num.toNat q.num.toNat : ℤ) - (log2Fuel q.den q.den : ℤ)
  else (log2Fuel q.num.toNat q.num.toNat : ℤ) - (log2Fuel q.den q.den : ℤ) - 1

/-- The nearest integer, a tie going to the even one. -/
def roundHalfEven (t : ℚ) : ℤ :=
  if t - ⌊t⌋ < 1 / 2 then ⌊t⌋
  else if 1 / 2 < t - ⌊t⌋ then ⌊t⌋ + 1
  else if ⌊t⌋ % 2 = 0 then ⌊t⌋ else ⌊t⌋ + 1

/-- Exponent of the unit in the last place of a binary64 value of the size of
the positive rational `q`: 53 significant bits, and the subnormal spacing
`2 ^ (-1074)` at the bottom. -/
def ulpExponent (q : ℚ) : ℤ := max (floorLog2 q - 52) (-1074)

/-- The positive rational `q` rounded to a multiple of its unit in the last
place, nearest first and ties to even. -/
def roundMagnitude (q : ℚ) : ℚ :=
  (roundHalfEven (q / 2 ^ ulpExponent q) : ℚ) * 2 ^ ulpExponent q

/-- The largest finite binary64 value, `(2 ^ 53 - 1) * 2 ^ 971`. -/
def maxFinite : ℚ := (2 ^ 53 - 1) * 2 ^ 971

/-- IEEE-754 binary64 rounding of an exact result (round to nearest, ties to
even): the rounded magnitude with its sign, or an infinity when the rounded
magnitude exceeds the largest finite value. -/
def roundToDouble (q : ℚ) : Dbl :=
  if 0 < q then
    if maxFinite < roundMagnitude q then pinf else fin (roundMagnitude q)
  else if q < 0 then
    if maxFinite < roundMagnitude (-q) then ninf else fin (-roundMagnitude (-q))
  else fin 0

/-- The C++ operator `+` on doubles: the exact sum of two finite values rounded
to the nearest double. -/
def add : Dbl → Dbl → Dbl
  | nan, _ => nan
  | _, nan => nan
  | pinf, ninf => nan
  | ninf, pinf => nan
  | pinf, _ => pinf
  | _, pinf => pinf
  | ninf, _ => ninf
  | _, ninf => ninf
  | fin a, fin b => roundToDouble (a + b)

/-- The product of two doubles, exact on finite values. It is used by the sample
unit conversion of the concrete evaluations only, not by the embedded code. -/
def mul : Dbl → Dbl → Dbl
  | nan, _ => nan
  | _, nan => nan
  | fin a, fin b => fin (a * b)
  | fin a, pinf => if a = 0 then nan else if 0 < a then pinf else ninf
  | fin a, ninf => if a = 0 then nan else if 0 < a then ninf else pinf
  | pinf, fin b => if b = 0 then nan else if 0 < b then pinf else ninf
  | ninf, fin b => if b = 0 then nan else if 0 < b then ninf else pinf
  | pinf, pinf => pinf
  | ninf, ninf => pinf
  | pinf, ninf => ninf
  | ninf, pinf => ninf

end Dbl

/-! ## Ride samples -/

/-- `RideFilePoint`: the channels that `IntervalItem::refresh` reads and writes.
Every channel but `interval` is a `double`. -/
structure RideFilePoint where
  secs : Dbl
  cad : Dbl
  hr : Dbl
  km : Dbl
  kph : Dbl
  nm : Dbl
  watts : Dbl
  alt : Dbl
  lon : Dbl
  lat : Dbl
  headwind : Dbl
  slope : Dbl
  temp : Dbl
  lrbalance : Dbl
  lte : Dbl
  rte : Dbl
  lps : Dbl
  rps : Dbl
  lpco : Dbl
  rpco : Dbl
  lppb : Dbl
  rppb : Dbl
  lppe : Dbl
  rppe : Dbl
  lpppb : Dbl
  rpppb : Dbl
  lpppe : Dbl
  rpppe : Dbl
  smo2 : Dbl
  thb : Dbl
  rvert : Dbl
  rcad : Dbl
  rcontact : Dbl
  interval : Int
  np : Dbl
  xp : Dbl
  apower : Dbl
deriving DecidableEq

/-- `RideFile`: the sample vector `dataPoints()` and the recording interval
`recIntSecs()`. -/
structure RideFile where
  dataPoints : List RideFilePoint
  recIntSecs : Dbl
deriving DecidableEq

namespace RideFile

/-- Modelled from the spec: `RideFile::appendPoint` is not part of the source
file. It appends one new sample holding the given raw channel values and the
given interval number; the derived fields of the new sample start at 0. -/
def appendPoint (f : RideFile)
    (secs cad hr km kph nm watts alt lon lat headwind slope temp lrbalance
      lte rte lps rps lpco rpco lppb rppb lppe rppe lpppb rpppb lpppe rpppe
      smo2 thb rvert rcad rcontact : Dbl) (interval : Int) : RideFile :=
  { f with dataPoints := f.dataPoints ++
      [{ secs := secs, cad := cad, hr := hr, km := km, kph := kph, nm := nm,
         watts := watts, alt := alt, lon := lon, lat := lat, headwind := headwind,
         slope := slope, temp := temp, lrbalance := lrbalance,
         lte := lte, rte := rte, lps := lps, rps := rps,
         lpco := lpco, rpco := rpco, lppb := lppb, rppb := rppb,
         lppe := lppe, rppe := rppe, lpppb := lpppb, rpppb := rpppb,
         lpppe := lpppe, rpppe := rpppe,
         smo2 := smo2, thb := thb, rvert := rvert, rcad := rcad,
         rcontact := rcontact, interval := interval,
         np := Dbl.zero, xp := Dbl.zero, apower := Dbl.zero }] }

/-- The statements `l = intervalRide.dataPoints().last(); l->np = p->np;
l->xp = p->xp; l->apower = p->apower`: the derived data of `p` written onto
the last sample of the vector. -/
def setLastDerived (p : RideFilePoint) : List RideFilePoint → List RideFilePoint
  | [] => []
  | [l] => [{ l with np := p.np, xp := p.xp, apower := p.apower }]
  | x :: y :: rest => x :: setLastDerived p (y :: rest)

/-- Index of the first sample of `pts` whose `secs` is `>= start`, counted from
`i`; `-1` when there is none. -/
def firstAtOrAfter (start : Dbl) : List RideFilePoint → Nat → Int
  | [], _ => -1
  | p :: ps, i => if Dbl.ge p.secs start then (i : Int) else firstAtOrAfter start ps (i + 1)

/-- Modelled from the spec: `RideFile::intervalBeginSecs` is not part of the
source file. It is the lookup of the first sample index at or after a given
time offset; when there is no such sample the result is out of range (`-1`). -/
def intervalBeginSecs (f : RideFile) (start : Dbl) : Int :=
  firstAtOrAfter start f.dataPoints 0

end RideFile

open RideFile

/-- The temporary-ride loop of `IntervalItem::refresh`, run over the samples
from the start index on: stop at the first sample with
`p->secs + f->recIntSecs() > stop`, otherwise append all raw values (interval
number 0) and copy the derived data onto the sample just appended. -/
def refreshLoop (recIntSecs stop : Dbl) : List RideFilePoint → RideFile → RideFile
  | [], intervalRide => intervalRide
  | p :: rest, intervalRide =>
    if Dbl.gt (Dbl.add p.secs recIntSecs) stop then intervalRide
    else
      let appended := intervalRide.appendPoint p.secs p.cad p.hr p.km p.kph p.nm
        p.watts p.alt p.lon p.lat p.headwind
        p.slope p.temp p.lrbalance
        p.lte p.rte p.lps p.rps
        p.lpco p.rpco p.lppb p.rppb p.lppe p.rppe p.lpppb p.rpppb p.lpppe p.rpppe
        p.smo2 p.thb p.rvert p.rcad p.rcontact 0
      refreshLoop recIntSecs stop rest
        { appended with dataPoints := setLastDerived p appended.dataPoints }

/-- The temporary ride built by `IntervalItem::refresh` for the bounds
`start`, `stop`: `RideFile intervalRide(f)` followed by the `for` loop, whose
index starts at `f->intervalBeginSecs(start)` and runs while
`i >= 0 && i < f->dataPoints().size()`. -/
def intervalRide (f : RideFile) (start stop : Dbl) : RideFile :=
  let i := f.intervalBeginSecs start
  if 0 ≤ i then
    refreshLoop f.recIntSecs stop (f.dataPoints.drop i.toNat) { f with dataPoints := [] }
  else { f with dataPoints := [] }

/-! ## Metrics and the metric factory -/

/-- Modelled from the spec: the class `RideMetric` is not part of the source
file. A metric object carries its symbol, its dense index into the value
array, the value it currently holds, its unit-conversion rule (from the stored
metric-unit value to the imperial value) and its canonical formatting (of a
stored value, in the unit system selected by the flag `useMetricUnits`). -/
structure RideMetric where
  symbol : String
  index : Nat
  value_ : Dbl
  convert : Dbl → Dbl
  format : Bool → Dbl → String

namespace RideMetric

/-- `RideMetric::setValue`. -/
def setValue (m : RideMetric) (v : Dbl) : RideMetric := { m with value_ := v }

/-- `RideMetric::value(bool useMetricUnits)`: the held value as it is for
metric units, converted by the unit-conversion rule otherwise. -/
def value (m : RideMetric) (useMetricUnits : Bool) : Dbl :=
  if useMetricUnits then m.value_ else m.convert m.value_

/-- `RideMetric::toString(bool useMetricUnits)`: the canonical text of the held
value. -/
def toString (m : RideMetric) (useMetricUnits : Bool) : String :=
  m.format useMetricUnits m.value_

end RideMetric

/-- Modelled from the spec: the class `RideMetricFactory` is not part of the
source file. The registry is the collection of the registered metric objects,
looked up by symbol. -/
structure RideMetricFactory where
  metrics : List RideMetric

namespace RideMetricFactory

/-- `RideMetricFactory::metricCount`. -/
def metricCount (factory : RideMetricFactory) : Nat := factory.metrics.length

/-- `RideMetricFactory::allMetrics`: the symbols of the registered metrics. -/
def allMetrics (factory : RideMetricFactory) : List String :=
  factory.metrics.map (fun m => m.symbol)

/-- `RideMetricFactory::rideMetric(name)`: the registered metric object with
that symbol, `none` (a null pointer) when there is none. -/
def rideMetric (factory : RideMetricFactory) (name : String) : Option RideMetric :=
  factory.metrics.find? (fun m => m.symbol == name)

/-- The registered metrics after `setValue(v)` on the object that
`rideMetric(name)` points to. -/
def setValueIn (name : String) (v : Dbl) : List RideMetric → List RideMetric
  | [] => []
  | m :: ms => if m.symbol == name then m.setValue v :: ms else m :: setValueIn name v ms

/-- The registry after `const_cast<RideMetric*>(m)->setValue(v)` where `m` is
`rideMetric(name)`. -/
def setValue (factory : RideMetricFactory) (name : String) (v : Dbl) : RideMetricFactory :=
  { factory with metrics := setValueIn name v factory.metrics }

end RideMetricFactory

/-! ## The objects an interval refers to -/

/-- Power zones of the athlete: a configuration value handed unchanged to the
metric computation. -/
structure Zones where
  config : List Dbl
deriving DecidableEq

/-- Heart-rate zones of the athlete: a configuration value handed unchanged to
the metric computation. -/
structure HrZones where
  config : List Dbl
deriving DecidableEq

/-- `Athlete`: the two zone configurations read by `refresh`. -/
structure Athlete where
  zones : Zones
  hrZones : HrZones
deriving DecidableEq

/-- `Context`: gives access to the athlete. -/
structure Context where
  athlete : Athlete
deriving DecidableEq

/-- `RideItem`: the owning activity. `ride_` is the pointer to the loaded
sample data (`none` when the data is not available), `isdirty` the flag set by
`setDirty`. -/
structure RideItem where
  ride_ : Option RideFile
  context : Context
  isdirty : Bool
deriving DecidableEq

namespace RideItem

/-- Modelled from the spec: `RideItem::setDirty` is not part of the source
file. It marks the owning activity dirty (or clean). -/
def setDirty (item : RideItem) (val : Bool) : RideItem := { item with isdirty := val }

end RideItem

/-- `RideFileInterval::IntervalType`. Modelled from the spec: the enumeration is
not part of the source file, which names `USER` only; every other tag is a
system-detected kind. -/
inductive IntervalType where
  | USER : IntervalType
  | SYSTEM (tag : Nat) : IntervalType
deriving DecidableEq

/-- `RideFileInterval`: the persisted bound record of the ride file. -/
structure RideFileInterval where
  type : IntervalType
  start : Dbl
  stop : Dbl
  name : String
deriving DecidableEq

/-- `RideMetric::computeMetrics(context, ride, zones, hrZones, metrics)`: not
part of the source file, so it is a parameter of the embedding. The result is
the `QHash<QString,RideMetricPtr>` in the order its iterator visits it. -/
abbrev ComputeMetrics :=
  Context → RideFile → Zones → HrZones → List String → List (String × RideMetric)

/-- The program state outside the interval record: the metric registry
singleton, and the heaps of `RideItem` and `RideFileInterval` objects (a
pointer is an index into its heap). -/
structure World where
  factory : RideMetricFactory
  rideItems : List RideItem
  rideIntervals : List RideFileInterval

/-! ## IntervalItem -/

/-- `IntervalItem`: the members declared for the class. `ride` is a
`const RideFile *` that is stored and never dereferenced here; `color` is the
rgb value of the `QColor`. -/
structure IntervalItem where
  rideItem_ : Option Nat
  selected : Bool
  name : String
  type : IntervalType
  start : Dbl
  stop : Dbl
  startKM : Dbl
  stopKM : Dbl
  displaySequence : Int
  color : Nat
  ride : Option Nat
  rideInterval : Option Nat
  metrics_ : List Dbl
deriving DecidableEq

namespace IntervalItem

/-- `QVector<double>::fill(0, size)`: the vector of `size` zeros. -/
def fill (size : Nat) : List Dbl := List.replicate size Dbl.zero

/-- The constructor `IntervalItem::IntervalItem(ride, name, start, stop,
startKM, stopKM, displaySequence, color, type)`. -/
def construct (factory : RideMetricFactory) (ride : Option Nat) (name : String)
    (start stop startKM stopKM : Dbl) (displaySequence : Int) (color : Nat)
    (type : IntervalType) : IntervalItem :=
  { name := name, ride := ride, start := start, stop := stop,
    startKM := startKM, stopKM := stopKM, displaySequence := displaySequence,
    rideItem_ := none, type := type, color := color, selected := false,
    rideInterval := none, metrics_ := fill factory.metricCount }

/-- The default constructor `IntervalItem::IntervalItem()`. Its initialiser list
leaves `selected` and `ride` uninitialised: their indeterminate values are the
arguments `selected0` and `ride0`. -/
def constructDefault (factory : RideMetricFactory) (selected0 : Bool)
    (ride0 : Option Nat) : IntervalItem :=
  { rideItem_ := none, name := "", type := IntervalType.USER,
    start := Dbl.zero, stop := Dbl.zero, startKM := Dbl.zero, stopKM := Dbl.zero,
    displaySequence := 0, color := 0, rideInterval := none,
    selected := selected0, ride := ride0, metrics_ := fill factory.metricCount }

/-- `IntervalItem::setFrom(other)`: `*this = other; rideInterval = NULL;
selected = false`. The first argument is `*this` before the call. -/
def setFrom (_this other : IntervalItem) : IntervalItem :=
  { other with rideInterval := none, selected := false }

/-- `IntervalItem::setFrom` on records living in a store: the record at
address `t` calls `setFrom` on the record at address `o` (the two addresses
may coincide). -/
def setFromAt (items : List IntervalItem) (t o : Nat) : Option (List IntervalItem) :=
  match items[t]?, items[o]? with
  | some this, some other => some (items.set t (setFrom this other))
  | _, _ => none

/-- One step of the `while (i.hasNext())` loop of `refresh`:
`metrics_[i.value()->index()] = i.value()->value()`. -/
def storeComputed (metrics_ : List Dbl) (entry : String × RideMetric) : Option (List Dbl) :=
  if entry.2.index < metrics_.length then
    some (metrics_.set entry.2.index (entry.2.value true))
  else none

/-- One step of the `for (j ...)` loop of `refresh`:
`if (std::isinf(metrics_[j]) || std::isnan(metrics_[j])) metrics_[j] = 0.00f`. -/
def cleanBadValue (metrics_ : List Dbl) (j : Nat) : Option (List Dbl) :=
  match metrics_[j]? with
  | none => none
  | some v => if v.isinf || v.isnan then some (metrics_.set j Dbl.zero) else some metrics_

/-- `IntervalItem::refresh`. -/
def refresh (computeMetrics : ComputeMetrics) (w : World) (it : IntervalItem) :
    Option (World × IntervalItem) :=
  match it.rideItem_ with
  | none => none
  | some a =>
    match w.rideItems[a]? with
    | none => none
    | some item =>
      match item.ride_ with
      | none => some (w, it)
      | some f =>
        let intervalRide := intervalRide f it.start it.stop
        if intervalRide.dataPoints.length = 0 then some (w, it)
        else
          let factory := w.factory
          let computed := computeMetrics item.context intervalRide
            item.context.athlete.zones item.context.athlete.hrZones factory.allMetrics
          match computed.foldlM storeComputed (fill factory.metricCount) with
          | none => none
          | some stored =>
            match (List.range factory.metricCount).foldlM cleanBadValue stored with
            | none => none
            | some cleaned => some (w, { it with metrics_ := cleaned })

/-- The statements of `IntervalItem::setValues` that come before the final
`refresh()`: apply the update to the record and, for a `USER` interval with a
`rideInterval`, update the ride file interval and mark the ride item dirty. -/
def setValuesUpdate (w : World) (it : IntervalItem)
    (name : String) (duration1 duration2 distance1 distance2 : Dbl) :
    Option (World × IntervalItem) :=
  let it1 := { it with name := name, start := duration1, stop := duration2,
                       startKM := distance1, stopKM := distance2 }
  match decide (it1.type = IntervalType.USER), it1.rideInterval with
  | true, some b =>
    match w.rideIntervals[b]? with
    | none => none
    | some rideInterval =>
      let w1 := { w with rideIntervals :=
        w.rideIntervals.set b { rideInterval with start := duration1, stop := duration2 } }
      let it2 := { it1 with start := duration1, stop := duration2,
                            startKM := distance1, stopKM := distance2 }
      match it2.rideItem_ with
      | none => none
      | some a =>
        match w1.rideItems[a]? with
        | none => none
        | some item =>
          some ({ w1 with rideItems := w1.rideItems.set a (item.setDirty true) }, it2)
  | _, _ => some (w, it1)

/-- `IntervalItem::setValues`: the update, then `refresh()`. -/
def setValues (computeMetrics : ComputeMetrics) (w : World) (it : IntervalItem)
    (name : String) (duration1 duration2 distance1 distance2 : Dbl) :
    Option (World × IntervalItem) :=
  match setValuesUpdate w it name duration1 duration2 distance1 distance2 with
  | none => none
  | some (w1, it1) => refresh computeMetrics w1 it1

/-- `IntervalItem::getForSymbol(name, useMetricUnits)`. -/
def getForSymbol (w : World) (it : IntervalItem) (name : String) (useMetricUnits : Bool) :
    Option (World × Dbl) :=
  if it.metrics_.length ≠ 0 then
    match w.factory.rideMetric name with
    | some m =>
      match it.metrics_[m.index]? with
      | none => none
      | some v =>
        if useMetricUnits then some (w, v)
        else
          some ({ w with factory := w.factory.setValue name v },
                (m.setValue v).value useMetricUnits)
    | none => some (w, Dbl.zero)
  else some (w, Dbl.zero)

/-- `IntervalItem::getStringForSymbol(name, useMetricUnits)`. -/
def getStringForSymbol (w : World) (it : IntervalItem) (name : String)
    (useMetricUnits : Bool) : Option (World × String) :=
  let returning := "-"
  if it.metrics_.length ≠ 0 then
    match w.factory.rideMetric name with
    | some m =>
      match it.metrics_[m.index]? with
      | none => none
      | some v =>
        let value := if v.isinf || v.isnan then Dbl.zero else v
        some ({ w with factory := w.factory.setValue name value },
              (m.setValue value).toString useMetricUnits)
    | none => some (w, returning)
  else some (w, returning)

end IntervalItem

/-! ## Sample data used in the concrete evaluations -/

/-- A sample at time offset `t`, with a cadence, a power value, missing heart
rate (NaN), the `-255` "no data" temperature, and derived data. -/
def samplePoint (t : Dbl) : RideFilePoint :=
  { secs := t, cad := Dbl.fin 90, hr := Dbl.nan, km := Dbl.fin 0, kph := Dbl.fin 0,
    nm := Dbl.fin 0, watts := Dbl.fin 200, alt := Dbl.fin 0, lon := Dbl.fin 0,
    lat := Dbl.fin 0, headwind := Dbl.fin 0, slope := Dbl.fin 0, temp := Dbl.fin (-255),
    lrbalance := Dbl.fin 0, lte := Dbl.fin 0, rte := Dbl.fin 0, lps := Dbl.fin 0,
    rps := Dbl.fin 0, lpco := Dbl.fin 0, rpco := Dbl.fin 0, lppb := Dbl.fin 0,
    rppb := Dbl.fin 0, lppe := Dbl.fin 0, rppe := Dbl.fin 0, lpppb := Dbl.fin 0,
    rpppb := Dbl.fin 0, lpppe := Dbl.fin 0, rpppe := Dbl.fin 0, smo2 := Dbl.fin 0,
    thb := Dbl.fin 0, rvert := Dbl.fin 0, rcad := Dbl.fin 0, rcontact := Dbl.fin 0,
    interval := 3, np := Dbl.fin 180, xp := Dbl.fin 170, apower := Dbl.fin 160 }

/-- Ten samples at 1-second intervals (time offsets 0 to 9), recording
interval 1 second. -/
def tenSamples : RideFile :=
  { dataPoints := (List.range 10).map (fun n => samplePoint (Dbl.fin n)),
    recIntSecs := Dbl.fin 1 }

/-- One sample at the double nearest to 0.4, recording interval the double
nearest to 0.1: the exact sum of the two is above 0.5 by `2 ^ (-55)` and the
double sum is 0.5. -/
def tenthsRide : RideFile :=
  { dataPoints := [samplePoint (Dbl.fin (3602879701896397 / 9007199254740992))],
    recIntSecs := Dbl.fin (3602879701896397 / 36028797018963968) }

/-- The metric `avg_power`: index 0, no unit conversion. -/
def avgPower : RideMetric :=
  { symbol := "avg_power", index := 0, value_ := Dbl.zero,
    convert := fun v => v,
    format := fun useMetricUnits v =>
      (if v.isFinite then "finite" else "bad") ++ (if useMetricUnits then " W" else " W") }

/-- The metric `distance_mi`: index 1, kilometres converted to miles by the
factor 0.621371. -/
def distanceMi : RideMetric :=
  { symbol := "distance_mi", index := 1, value_ := Dbl.zero,
    convert := fun v => Dbl.mul v (Dbl.fin (621371 / 1000000)),
    format := fun useMetricUnits v =>
      (if v.isFinite then "finite" else "bad") ++ (if useMetricUnits then " km" else " mi") }

/-- The registry with the metrics `avg_power` (index 0) and `distance_mi`
(index 1). -/
def sampleFactory : RideMetricFactory := { metrics := [avgPower, distanceMi] }

/-- A metric computation: `avg_power` is 200, and `distance_mi` is a rate that
is infinite on a slice of one sample and 3 otherwise. -/
def sampleCompute : ComputeMetrics := fun _ ride _ _ _ =>
  [("avg_power", avgPower.setValue (Dbl.fin 200)),
   ("distance_mi",
     distanceMi.setValue (if ride.dataPoints.length = 1 then Dbl.pinf else Dbl.fin 3))]

/-- An athlete context with empty zone configurations. -/
def sampleContext : Context := { athlete := { zones := { config := [] }, hrZones := { config := [] } } }

/-- A program state: ride item 0 holds the ten samples, ride item 1 has no
sample data, ride item 2 holds an empty sample vector; persisted bound record 0
is a user interval `[0, 9]`. -/
def sampleWorld : World :=
  { factory := sampleFactory,
    rideItems :=
      [{ ride_ := some tenSamples, context := sampleContext, isdirty := false },
       { ride_ := none, context := sampleContext, isdirty := false },
       { ride_ := some { dataPoints := [], recIntSecs := Dbl.fin 1 },
         context := sampleContext, isdirty := false }],
    rideIntervals :=
      [{ type := IntervalType.USER, start := Dbl.fin 0, stop := Dbl.fin 9, name := "lap" }] }

/-- A record constructed for the bounds `[start, stop)` and then attached to
the ride item at address `a`. -/
def sampleItem (a : Nat) (start stop : Dbl) : IntervalItem :=
  { IntervalItem.construct sampleFactory none "effort" start stop (Dbl.fin 0) (Dbl.fin 1)
      1 255 IntervalType.USER with rideItem_ := some a, rideInterval := none }

/-- The value that the cleaning loop of `refresh` leaves in a slot holding `v`:
0 for an infinite or NaN value, `v` itself otherwise. -/
def cleaned (v : Dbl) : Dbl := if v.isinf || v.isnan then Dbl.zero else v

/-- Records obtained from a constructor by `setFrom`, `setValues` and `refresh`
calls, run in any program state whose registry satisfies `P`. Between calls the
owner of the record may set its public members `rideItem_` and `rideInterval`
(attaching it to an activity and to a persisted bound record). -/
inductive Reachable (P : RideMetricFactory → Prop) : IntervalItem → Prop where
  | construct (factory : RideMetricFactory) (ride : Option Nat) (name : String)
      (start stop startKM stopKM : Dbl) (displaySequence : Int) (color : Nat)
      (type : IntervalType) : P factory →
      Reachable P (IntervalItem.construct factory ride name start stop startKM stopKM
        displaySequence color type)
  | constructDefault (factory : RideMetricFactory) (selected0 : Bool) (ride0 : Option Nat) :
      P factory → Reachable P (IntervalItem.constructDefault factory selected0 ride0)
  | attach (it : IntervalItem) (rideItem_ rideInterval : Option Nat) :
      Reachable P it →
      Reachable P { it with rideItem_ := rideItem_, rideInterval := rideInterval }
  | setFrom (this other : IntervalItem) :
      Reachable P this → Reachable P other → Reachable P (IntervalItem.setFrom this other)
  | setValues (computeMetrics : ComputeMetrics) (w w1 : World) (it it1 : IntervalItem)
      (name : String) (duration1 duration2 distance1 distance2 : Dbl) :
      P w.factory → Reachable P it →
      IntervalItem.setValues computeMetrics w it name duration1 duration2 distance1 distance2 =
        some (w1, it1) →
      Reachable P it1
  | refresh (computeMetrics : ComputeMetrics) (w w1 : World) (it it1 : IntervalItem) :
      P w.factory → Reachable P it →
      IntervalItem.refresh computeMetrics w it = some (w1, it1) →
      Reachable P it1

/-- A `USER` record for the bounds `[2, 5)`, attached to ride item 0 (the ten
samples) and linked to the persisted bound record 0. -/
def linkedItem : IntervalItem :=
  { sampleItem 0 (Dbl.fin 2) (Dbl.fin 5) with rideInterval := some 0 }

/-- A system-detected record for the bounds `[2, 5)`, attached to ride item 0
and (wrongly) still carrying the address of the persisted bound record 0. -/
def systemItem : IntervalItem :=
  { sampleItem 0 (Dbl.fin 2) (Dbl.fin 5) with
    type := IntervalType.SYSTEM 1, rideInterval := some 0 }

/-- A store of two records: a default-constructed one at address 0 and, at
address 1, a selected `USER` record linked to the persisted bound record 0 with
the cache `[250, 10]`. -/
def sampleItems : List IntervalItem :=
  [IntervalItem.constructDefault sampleFactory true none,
   { linkedItem with selected := true, metrics_ := [Dbl.fin 250, Dbl.fin 10] }]

/-- The linked `USER` record after `setValues("climb", 1, 4, 7, 8)` over the
ten samples: new name and bounds, cache `[200, 3]`. -/
def climbItem : IntervalItem :=
  { linkedItem with name := "climb", start := Dbl.fin 1, stop := Dbl.fin 4,
                    startKM := Dbl.fin 7, stopKM := Dbl.fin 8,
                    metrics_ := [Dbl.fin 200, Dbl.fin 3] }

/-- The program state after that call: persisted bound record 0 holds start 1
and stop 4, ride item 0 is dirty. -/
def climbWorld : World :=
  { sampleWorld with
    rideIntervals :=
      [{ type := IntervalType.USER, start := Dbl.fin 1, stop := Dbl.fin 4, name := "lap" }],
    rideItems :=
      [{ ride_ := some tenSamples, context := sampleContext, isdirty := true },
       { ride_ := none, context := sampleContext, isdirty := false },
       { ride_ := some { dataPoints := [], recIntSecs := Dbl.fin 1 },
         context := sampleContext, isdirty := false }] }

/-- The description of `setValues` in the specification ("set the bounds, then
`refresh()`"): the record with the new name and bounds, refreshed in the
program state as it is. -/
def setBoundsThenRefresh (computeMetrics : ComputeMetrics) (w : World) (it : IntervalItem)
    (name : String) (s e skm ekm : Dbl) : Option (World × IntervalItem) :=
  IntervalItem.refresh computeMetrics w
    { it with name := name, start := s, stop := e, startKM := skm, stopKM := ekm }

/-- A checked `QVector` read `v[i]` with an `int` index: `none` when `i` is
negative or not below the size. -/
def atIndex {α : Type} (v : List α) (i : Int) : Option α :=
  if 0 ≤ i then v[i.toNat]? else none

/-- The `for` loop of `IntervalItem::refresh` written with its index variable:
`i` runs while `i >= 0 && i < f->dataPoints().size()`, the read
`f->dataPoints()[i]` is checked (`none` when `i` is outside the vector), and
`fuel` bounds the number of evaluations of the loop condition (`none` when it
runs out). -/
def refreshLoopAt (f : RideFile) (stop : Dbl) : Nat → Int → RideFile → Option RideFile
  | 0, _, _ => none
  | fuel + 1, i, intervalRide =>
    if 0 ≤ i ∧ i < (f.dataPoints.length : Int) then
      match atIndex f.dataPoints i with
      | none => none
      | some p =>
        if Dbl.gt (Dbl.add p.secs f.recIntSecs) stop then some intervalRide
        else
          let appended := intervalRide.appendPoint p.secs p.cad p.hr p.km p.kph p.nm
            p.watts p.alt p.lon p.lat p.headwind
            p.slope p.temp p.lrbalance
            p.lte p.rte p.lps p.rps
            p.lpco p.rpco p.lppb p.rppb p.lppe p.rppe p.lpppb p.rpppb p.lpppe p.rpppe
            p.smo2 p.thb p.rvert p.rcad p.rcontact 0
          refreshLoopAt f stop fuel (i + 1)
            { appended with dataPoints := setLastDerived p appended.dataPoints }
    else some intervalRide

/-- The temporary ride of `refresh` computed by the indexed loop, started at
`f->intervalBeginSecs(start)`, with fuel for one evaluation of the loop
condition per sample and a last one. -/
def intervalRideChecked (f : RideFile) (start stop : Dbl) : Option RideFile :=
  refreshLoopAt f stop (f.dataPoints.length + 1) (f.intervalBeginSecs start)
    { f with dataPoints := [] }

/-! ## Facts about doubles -/

namespace Dbl

theorem le_trans_true {a b c : Dbl} (hab : le a b = true) (hbc : le b c = true) :
    le a c = true := by
  cases a <;> cases b <;> cases c <;> simp_all [le]
  exact hab.trans hbc

theorem le_false_of_gt {x s : Dbl} (h : gt x s = true) : le x s = false := by
  cases x <;> cases s <;> simp_all [le, lt, gt]

theorem le_of_not_gt {x s : Dbl} (h : gt x s = false) (hx : x.isnan = false)
    (hs : s.isnan = false) : le x s = true := by
  cases x <;> cases s <;> simp_all [le, lt, gt, isnan]

theorem not_nan_of_lt_right {a b : Dbl} (h : lt a b = true) : b.isnan = false := by
  cases a <;> cases b <;> simp_all [lt, isnan]

theorem not_nan_of_le_right {a b : Dbl} (h : le a b = true) : b.isnan = false := by
  cases a <;> cases b <;> simp_all [le, isnan]

theorem log2Fuel_spec (fuel n : Nat) (hfuel : n ≤ fuel) (hn : n ≠ 0) :
    2 ^ log2Fuel fuel n ≤ n ∧ n < 2 ^ (log2Fuel fuel n + 1) := by
  induction fuel generalizing n with
  | zero => omega
  | succ fuel ih =>
    unfold log2Fuel
    by_cases h2 : n < 2
    · simp only [h2, if_true]
      omega
    · simp only [h2, if_false]
      obtain ⟨h1, h3⟩ := ih (n / 2) (by omega) (by omega)
      constructor
      · calc 2 ^ (log2Fuel fuel (n / 2) + 1) = 2 ^ log2Fuel fuel (n / 2) * 2 := by ring
          _ ≤ (n / 2) * 2 := Nat.mul_le_mul_right 2 h1
          _ ≤ n := Nat.div_mul_le_self n 2
      · calc n < (n / 2 + 1) * 2 := by omega
          _ ≤ 2 ^ (log2Fuel fuel (n / 2) + 1) * 2 := Nat.mul_le_mul_right 2 h3
          _ = 2 ^ (log2Fuel fuel (n / 2) + 1 + 1) := by ring

theorem two_zpow_pos (e : ℤ) : (0 : ℚ) < 2 ^ e := zpow_pos (by norm_num) e

theorem two_zpow_le {a b : ℤ} (h : a ≤ b) : (2 : ℚ) ^ a ≤ 2 ^ b :=
  zpow_le_zpow_right₀ (by norm_num) h

theorem two_zpow_lt {a b : ℤ} (h : a < b) : (2 : ℚ) ^ a < 2 ^ b :=
  zpow_lt_zpow_right₀ (by norm_num) h

theorem two_zpow_add (a b : ℤ) : (2 : ℚ) ^ (a + b) = 2 ^ a * 2 ^ b :=
  zpow_add₀ (by norm_num) a b

theorem floorLog2_spec (q : ℚ) (hq : 0 < q) :
    (2 : ℚ) ^ floorLog2 q ≤ q ∧ q < 2 ^ (floorLog2 q + 1) := by
  have hnum : 0 < q.num := Rat.num_pos.2 hq
  have hn0 : q.num.toNat ≠ 0 := by omega
  have hd0 : q.den ≠ 0 := q.den_nz
  obtain ⟨ha1, ha2⟩ := log2Fuel_spec q.num.toNat q.num.toNat (le_refl _) hn0
  obtain ⟨hb1, hb2⟩ := log2Fuel_spec q.den q.den (le_refl _) hd0
  have hqeq : q = (q.num.toNat : ℚ) / (q.den : ℚ) := by
    have h1 : ((q.num.toNat : ℤ) : ℚ) = (q.num : ℚ) := by
      rw [Int.toNat_of_nonneg hnum.le]
    rw [← Int.cast_natCast, h1]
    exact (Rat.num_div_den q).symm
  have hdpos : (0 : ℚ) < (q.den : ℚ) := by exact_mod_cast Nat.pos_of_ne_zero hd0
  have ha1' : (2 : ℚ) ^ (log2Fuel q.num.toNat q.num.toNat : ℤ) ≤ (q.num.toNat : ℚ) := by
    rw [zpow_natCast]; exact_mod_cast ha1
  have ha2' : (q.num.toNat : ℚ) < (2 : ℚ) ^ ((log2Fuel q.num.toNat q.num.toNat : ℤ) + 1) := by
    have : ((log2Fuel q.num.toNat q.num.toNat : ℤ) + 1) =
        ((log2Fuel q.num.toNat q.num.toNat + 1 : ℕ) : ℤ) := by push_cast; ring
    rw [this, zpow_natCast]; exact_mod_cast ha2
  have hb1' : (2 : ℚ) ^ (log2Fuel q.den q.den : ℤ) ≤ (q.den : ℚ) := by
    rw [zpow_natCast]; exact_mod_cast hb1
  have hb2' : (q.den : ℚ) < (2 : ℚ) ^ ((log2Fuel q.den q.den : ℤ) + 1) := by
    have : ((log2Fuel q.den q.den : ℤ) + 1) = ((log2Fuel q.den q.den + 1 : ℕ) : ℤ) := by
      push_cast; ring
    rw [this, zpow_natCast]; exact_mod_cast hb2
  have hupper : q < 2 ^ ((log2Fuel q.num.toNat q.num.toNat : ℤ) - (log2Fuel q.den q.den : ℤ) + 1) := by
    have e1 : (log2Fuel q.num.toNat q.num.toNat : ℤ) - (log2Fuel q.den q.den : ℤ) + 1 =
        ((log2Fuel q.num.toNat q.num.toNat : ℤ) + 1) + (-(log2Fuel q.den q.den : ℤ)) := by ring
    rw [e1, two_zpow_add, zpow_neg]
    have h2b := two_zpow_pos (log2Fuel q.den q.den : ℤ)
    calc q = (q.num.toNat : ℚ) / (q.den : ℚ) := hqeq
      _ < 2 ^ ((log2Fuel q.num.toNat q.num.toNat : ℤ) + 1) / (q.den : ℚ) :=
          div_lt_div_of_pos_right ha2' hdpos
      _ ≤ 2 ^ ((log2Fuel q.num.toNat q.num.toNat : ℤ) + 1) / 2 ^ (log2Fuel q.den q.den : ℤ) :=
          div_le_div_of_nonneg_left (two_zpow_pos _).le h2b hb1'
      _ = _ := by rw [div_eq_mul_inv]
  have hlower : (2 : ℚ) ^ ((log2Fuel q.num.toNat q.num.toNat : ℤ) - (log2Fuel q.den q.den : ℤ) - 1) ≤ q := by
    have e1 : (log2Fuel q.num.toNat q.num.toNat : ℤ) - (log2Fuel q.den q.den : ℤ) - 1 =
        (log2Fuel q.num.toNat q.num.toNat : ℤ) + (-((log2Fuel q.den q.den : ℤ) + 1)) := by ring
    rw [e1, two_zpow_add, zpow_neg]
    have h2b := two_zpow_pos ((log2Fuel q.den q.den : ℤ) + 1)
    calc (2 : ℚ) ^ (log2Fuel q.num.toNat q.num.toNat : ℤ) * (2 ^ ((log2Fuel q.den q.den : ℤ) + 1))⁻¹
        = 2 ^ (log2Fuel q.num.toNat q.num.toNat : ℤ) / 2 ^ ((log2Fuel q.den q.den : ℤ) + 1) := by
          rw [div_eq_mul_inv]
      _ ≤ (q.num.toNat : ℚ) / 2 ^ ((log2Fuel q.den q.den : ℤ) + 1) :=
          div_le_div_of_nonneg_right ha1' h2b.le
      _ ≤ (q.num.toNat : ℚ) / (q.den : ℚ) :=
          div_le_div_of_nonneg_left (Nat.cast_nonneg _) hdpos hb2'.le
      _ = q := hqeq.symm
  unfold floorLog2
  split
  · rename_i h
    exact ⟨h, hupper⟩
  · rename_i h
    refine ⟨hlower, ?_⟩
    have : (log2Fuel q.num.toNat q.num.toNat : ℤ) - (log2Fuel q.den q.den : ℤ) - 1 + 1 =
        (log2Fuel q.num.toNat q.num.toNat : ℤ) - (log2Fuel q.den q.den : ℤ) := by ring
    rw [this]
    exact not_le.1 h

theorem floorLog2_mono {x y : ℚ} (hx : 0 < x) (hxy : x ≤ y) : floorLog2 x ≤ floorLog2 y := by
  have hy : 0 < y := lt_of_lt_of_le hx hxy
  have h1 := (floorLog2_spec x hx).1
  have h2 := (floorLog2_spec y hy).2
  have h3 : (2 : ℚ) ^ floorLog2 x < 2 ^ (floorLog2 y + 1) :=
    lt_of_le_of_lt (le_trans h1 hxy) h2
  by_contra hcon
  have : floorLog2 y + 1 ≤ floorLog2 x := by omega
  exact absurd (two_zpow_le this) (not_le.2 h3)


theorem roundHalfEven_intCast (z : ℤ) : roundHalfEven (z : ℚ) = z := by
  unfold roundHalfEven
  simp

theorem floor_le_roundHalfEven (t : ℚ) : ⌊t⌋ ≤ roundHalfEven t := by
  unfold roundHalfEven
  split
  · exact le_refl _
  · split
    · omega
    · split <;> omega

theorem roundHalfEven_le_floor_add_one (t : ℚ) : roundHalfEven t ≤ ⌊t⌋ + 1 := by
  unfold roundHalfEven
  split
  · omega
  · split
    · omega
    · split <;> omega

theorem roundHalfEven_mono {s t : ℚ} (h : s ≤ t) : roundHalfEven s ≤ roundHalfEven t := by
  have hfl : ⌊s⌋ ≤ ⌊t⌋ := Int.floor_mono h
  rcases lt_or_eq_of_le hfl with hlt | heq
  · calc roundHalfEven s ≤ ⌊s⌋ + 1 := roundHalfEven_le_floor_add_one s
      _ ≤ ⌊t⌋ := hlt
      _ ≤ roundHalfEven t := floor_le_roundHalfEven t
  · have hfrac : s - ⌊s⌋ ≤ t - ⌊t⌋ := by rw [heq]; linarith
    unfold roundHalfEven
    rw [heq]
    rw [heq] at hfrac
    by_cases h1 : t - ⌊t⌋ < 1 / 2
    · have h2 : s - ⌊t⌋ < 1 / 2 := lt_of_le_of_lt hfrac h1
      rw [if_pos h2, if_pos h1]
    · by_cases h3 : 1 / 2 < t - ⌊t⌋
      · simp only [h1, h3, if_true, if_false]
        split
        · omega
        · split
          · exact le_refl _
          · split <;> omega
      · have ht : t - ⌊t⌋ = 1 / 2 := le_antisymm (not_lt.1 h3) (not_lt.1 h1)
        by_cases h4 : s - ⌊t⌋ < 1 / 2
        · simp only [h4, if_true, h1, h3, if_false]
          split <;> omega
        · have h5 : ¬ (1 / 2 < s - ⌊t⌋) := by rw [ht] at hfrac; exact not_lt.2 hfrac
          simp only [h1, h3, h4, h5, if_false]
          exact le_refl _

theorem ulpExponent_mono {x y : ℚ} (hx : 0 < x) (hxy : x ≤ y) :
    ulpExponent x ≤ ulpExponent y := by
  unfold ulpExponent
  have := floorLog2_mono hx hxy
  omega

theorem div_ulp_lt (q : ℚ) (hq : 0 < q) : q / 2 ^ ulpExponent q < 2 ^ (53 : ℤ) := by
  rw [div_lt_iff₀ (two_zpow_pos _), ← two_zpow_add]
  have h1 := (floorLog2_spec q hq).2
  have h2 : floorLog2 q + 1 ≤ 53 + ulpExponent q := by
    unfold ulpExponent
    omega
  exact lt_of_lt_of_le h1 (two_zpow_le h2)

theorem le_div_ulp (q : ℚ) (hq : 0 < q) (hn : ulpExponent q ≠ -1074) :
    (2 : ℚ) ^ (52 : ℤ) ≤ q / 2 ^ ulpExponent q := by
  rw [le_div_iff₀ (two_zpow_pos _), ← two_zpow_add]
  have h1 := (floorLog2_spec q hq).1
  have h2 : 52 + ulpExponent q = floorLog2 q := by
    unfold ulpExponent at hn ⊢
    omega
  rw [h2]
  exact h1

theorem roundMagnitude_nonneg (q : ℚ) (hq : 0 < q) : 0 ≤ roundMagnitude q := by
  unfold roundMagnitude
  apply mul_nonneg _ (two_zpow_pos _).le
  have h0 : (0 : ℚ) ≤ q / 2 ^ ulpExponent q := (div_pos hq (two_zpow_pos _)).le
  have := roundHalfEven_mono h0
  rw [show (0 : ℚ) = ((0 : ℤ) : ℚ) by simp, roundHalfEven_intCast] at this
  exact_mod_cast this

theorem roundMagnitude_mono {x y : ℚ} (hx : 0 < x) (hxy : x ≤ y) :
    roundMagnitude x ≤ roundMagnitude y := by
  have hy : 0 < y := lt_of_lt_of_le hx hxy
  have hE := ulpExponent_mono hx hxy
  unfold roundMagnitude
  rcases lt_or_eq_of_le hE with hlt | heq
  · have hxm : roundHalfEven (x / 2 ^ ulpExponent x) ≤ 2 ^ 53 := by
      have h := roundHalfEven_mono (div_ulp_lt x hx).le
      have e : ((2 : ℚ) ^ (53 : ℤ)) = (((2 ^ 53 : ℤ)) : ℚ) := by norm_num
      rw [e, roundHalfEven_intCast] at h
      exact h
    have hyn : ulpExponent y ≠ -1074 := by
      have : -1074 ≤ ulpExponent x := by unfold ulpExponent; omega
      omega
    have hym : 2 ^ 52 ≤ roundHalfEven (y / 2 ^ ulpExponent y) := by
      have h := roundHalfEven_mono (le_div_ulp y hy hyn)
      have e : ((2 : ℚ) ^ (52 : ℤ)) = (((2 ^ 52 : ℤ)) : ℚ) := by norm_num
      rw [e, roundHalfEven_intCast] at h
      exact h
    have hxm' : (roundHalfEven (x / 2 ^ ulpExponent x) : ℚ) ≤ 2 ^ (53 : ℤ) := by
      have e : ((2 : ℚ) ^ (53 : ℤ)) = (((2 ^ 53 : ℤ)) : ℚ) := by norm_num
      rw [e]
      exact_mod_cast hxm
    have hym' : (2 : ℚ) ^ (52 : ℤ) ≤ (roundHalfEven (y / 2 ^ ulpExponent y) : ℚ) := by
      have e : ((2 : ℚ) ^ (52 : ℤ)) = (((2 ^ 52 : ℤ)) : ℚ) := by norm_num
      rw [e]
      exact_mod_cast hym
    calc (roundHalfEven (x / 2 ^ ulpExponent x) : ℚ) * 2 ^ ulpExponent x
        ≤ 2 ^ (53 : ℤ) * 2 ^ ulpExponent x :=
          mul_le_mul_of_nonneg_right hxm' (two_zpow_pos _).le
      _ = 2 ^ (53 + ulpExponent x) := (two_zpow_add _ _).symm
      _ ≤ 2 ^ (52 + ulpExponent y) := two_zpow_le (by omega)
      _ = 2 ^ (52 : ℤ) * 2 ^ ulpExponent y := two_zpow_add _ _
      _ ≤ (roundHalfEven (y / 2 ^ ulpExponent y) : ℚ) * 2 ^ ulpExponent y :=
          mul_le_mul_of_nonneg_right hym' (two_zpow_pos _).le
  · rw [heq]
    apply mul_le_mul_of_nonneg_right _ (two_zpow_pos _).le
    have : x / 2 ^ ulpExponent y ≤ y / 2 ^ ulpExponent y :=
      div_le_div_of_nonneg_right hxy (two_zpow_pos _).le
    exact_mod_cast roundHalfEven_mono this

theorem roundToDouble_isnan (q : ℚ) : (roundToDouble q).isnan = false := by
  unfold roundToDouble
  split_ifs <;> rfl

/-- Rounding to the nearest double keeps the order. -/
theorem roundToDouble_mono {x y : ℚ} (h : x ≤ y) :
    le (roundToDouble x) (roundToDouble y) = true := by
  unfold roundToDouble
  rcases lt_trichotomy 0 x with hx | hx | hx
  · have hy : 0 < y := lt_of_lt_of_le hx h
    have hm := roundMagnitude_mono hx h
    rw [if_pos hx, if_pos hy]
    split_ifs with h1 h2 h2
    · rfl
    · exact absurd (lt_of_lt_of_le h1 hm) h2
    · rfl
    · simpa [le] using hm
  · subst hx
    rw [if_neg (lt_irrefl 0), if_neg (lt_irrefl 0)]
    rcases lt_or_eq_of_le h with hy | hy
    · rw [if_pos hy]
      split_ifs
      · rfl
      · simpa [le] using roundMagnitude_nonneg y hy
    · rw [← hy, if_neg (lt_irrefl 0), if_neg (lt_irrefl 0)]
      simp [le]
  · have hx0 : ¬ 0 < x := not_lt.2 hx.le
    have hnx : 0 < -x := neg_pos.2 hx
    rw [if_neg hx0, if_pos hx]
    rcases lt_trichotomy 0 y with hy | hy | hy
    · rw [if_pos hy]
      have h1 := roundMagnitude_nonneg (-x) hnx
      have h2 := roundMagnitude_nonneg y hy
      split_ifs
      · rfl
      · rfl
      · rfl
      · simp only [le, decide_eq_true_eq]
        linarith
    · subst hy
      rw [if_neg (lt_irrefl 0), if_neg (lt_irrefl 0)]
      have h1 := roundMagnitude_nonneg (-x) hnx
      split_ifs
      · rfl
      · simp only [le, decide_eq_true_eq]
        linarith
    · have hy0 : ¬ 0 < y := not_lt.2 hy.le
      have hny : 0 < -y := neg_pos.2 hy
      have hm := roundMagnitude_mono hny (neg_le_neg h)
      rw [if_neg hy0, if_pos hy]
      split_ifs with h1 h2 h2
      · rfl
      · rfl
      · exact absurd (lt_of_lt_of_le h2 hm) h1
      · simp only [le, decide_eq_true_eq]
        linarith

theorem lt_of_lt_of_le_true {s x y : Dbl} (h1 : lt s x = true) (h2 : le x y = true) :
    lt s y = true := by
  cases s <;> cases x <;> cases y <;> simp_all [le, lt]
  exact lt_of_lt_of_le h1 h2

/-- The sum `secs + recIntSecs` of a sample at or after `start` is not NaN,
unless the recording interval is `+inf` and `start` is `-inf`. -/
theorem add_not_nan {start x r : Dbl} (hx : le start x = true) (hr : ge r zero = true)
    (h : r ≠ pinf ∨ start ≠ ninf) : (add x r).isnan = false := by
  cases x with
  | fin qx =>
    cases r with
    | fin qr => exact roundToDouble_isnan _
    | nan => cases start <;> simp_all [le, ge, add, isnan, zero]
    | ninf => cases start <;> simp_all [le, ge, add, isnan, zero]
    | pinf => cases start <;> simp_all [le, ge, add, isnan, zero]
  | nan => cases start <;> cases r <;> simp_all [le, ge, add, isnan, zero]
  | ninf => cases start <;> cases r <;> simp_all [le, ge, add, isnan, zero]
  | pinf => cases start <;> cases r <;> simp_all [le, ge, add, isnan, zero]

/-- Adding the same non-negative recording interval keeps the order. -/
theorem gt_add_mono {a b r s : Dbl} (hab : le a b = true) (hr : ge r zero = true)
    (hb : (add b r).isnan = false) (h : gt (add a r) s = true) :
    gt (add b r) s = true := by
  cases a with
  | fin qa =>
    cases b with
    | fin qb =>
      cases r with
      | fin qr =>
        have hle : qa + qr ≤ qb + qr := by
          have : qa ≤ qb := by simpa [le] using hab
          linarith
        exact lt_of_lt_of_le_true h (roundToDouble_mono hle)
      | nan => cases s <;> simp_all [le, ge, lt, gt, add, isnan, zero]
      | ninf => cases s <;> simp_all [le, ge, lt, gt, add, isnan, zero]
      | pinf => cases s <;> simp_all [le, ge, lt, gt, add, isnan, zero]
    | nan => simp [le] at hab
    | ninf => simp [le] at hab
    | pinf =>
      cases r with
      | fin qr =>
        generalize add (fin qa) (fin qr) = z at h
        cases z <;> cases s <;> simp_all [le, ge, lt, gt, add, isnan, zero]
      | nan => cases s <;> simp_all [le, ge, lt, gt, add, isnan, zero]
      | ninf => cases s <;> simp_all [le, ge, lt, gt, add, isnan, zero]
      | pinf => cases s <;> simp_all [le, ge, lt, gt, add, isnan, zero]
  | nan => cases b <;> cases r <;> cases s <;> simp_all [le, ge, lt, gt, add, isnan, zero]
  | ninf => cases b <;> cases r <;> cases s <;> simp_all [le, ge, lt, gt, add, isnan, zero]
  | pinf => cases b <;> cases r <;> cases s <;> simp_all [le, ge, lt, gt, add, isnan, zero]

end Dbl

/-! ## The temporary ride as a list function -/

theorem setLastDerived_append (p q : RideFilePoint) (xs : List RideFilePoint) :
    setLastDerived p (xs ++ [q]) =
      xs ++ [{ q with np := p.np, xp := p.xp, apower := p.apower }] := by
  induction xs with
  | nil => rfl
  | cons x xs ih =>
    cases xs with
    | nil => rfl
    | cons y ys =>
      have h : setLastDerived p (x :: y :: ys ++ [q]) =
          x :: setLastDerived p (y :: ys ++ [q]) := rfl
      rw [h, ih]
      rfl

/-- The loop appends, to the ride built so far, a copy (interval number 0) of
every sample up to the first one that fails the `stop` test. -/
theorem refreshLoop_eq (recIntSecs stop : Dbl) (pts : List RideFilePoint) (acc : RideFile) :
    refreshLoop recIntSecs stop pts acc =
      RideFile.mk
        (acc.dataPoints ++ List.map (fun p => { p with interval := 0 })
          (pts.takeWhile (fun p => !(Dbl.gt (Dbl.add p.secs recIntSecs) stop))))
        acc.recIntSecs := by
  induction pts generalizing acc with
  | nil => simp [refreshLoop]
  | cons p rest ih =>
    by_cases h : Dbl.gt (Dbl.add p.secs recIntSecs) stop = true
    · simp [refreshLoop, h]
    · simp only [refreshLoop, h, List.takeWhile_cons]
      rw [ih]
      simp [appendPoint, setLastDerived_append]

/-- Result of the start lookup: either `-1` when no sample is at or after
`start`, or the index of the first such sample. -/
theorem firstAtOrAfter_spec (start : Dbl) (pts : List RideFilePoint) (k : Nat) :
    (firstAtOrAfter start pts k = -1 ∧ ∀ p ∈ pts, Dbl.ge p.secs start = false) ∨
    (∃ j, firstAtOrAfter start pts k = ((k + j : Nat) : Int) ∧ j < pts.length ∧
      (∀ p ∈ pts.take j, Dbl.ge p.secs start = false) ∧
      (∃ p rest, pts.drop j = p :: rest ∧ Dbl.ge p.secs start = true)) := by
  induction pts generalizing k with
  | nil => left; simp [firstAtOrAfter]
  | cons p ps ih =>
    by_cases h : Dbl.ge p.secs start = true
    · right
      exact ⟨0, by simp [firstAtOrAfter, h], by simp, by simp, p, ps, rfl, h⟩
    · have hf : Dbl.ge p.secs start = false := by simpa using h
      rcases ih (k + 1) with ⟨h1, h2⟩ | ⟨j, h1, h2, h3, q, rest, h4, h5⟩
      · left
        refine ⟨by simp [firstAtOrAfter, hf, h1], ?_⟩
        intro q hq
        rcases List.mem_cons.1 hq with rfl | hq
        · exact hf
        · exact h2 q hq
      · right
        refine ⟨j + 1, ?_, by simpa using h2, ?_, q, rest, by simpa using h4, h5⟩
        · simp only [firstAtOrAfter, hf, h1]
          simp
          omega
        · intro x hx
          rw [List.take_succ_cons] at hx
          rcases List.mem_cons.1 hx with rfl | hx
          · exact hf
          · exact h3 x hx

theorem dropWhile_eq_drop_of_prefix {α : Type} (P : α → Bool) (xs : List α) (j : Nat)
    (hpre : ∀ x ∈ xs.take j, P x = true) (a : α) (rest : List α)
    (hd : xs.drop j = a :: rest) (ha : P a = false) :
    xs.dropWhile P = xs.drop j := by
  induction xs generalizing j with
  | nil => simp at hd
  | cons x xs ih =>
    cases j with
    | zero =>
      simp only [List.drop_zero, List.cons.injEq] at hd
      obtain ⟨rfl, rfl⟩ := hd
      simp [List.dropWhile_cons, ha]
    | succ j =>
      have hx : P x = true := hpre x (by simp)
      simp only [List.dropWhile_cons, hx, if_true, List.drop_succ_cons]
      apply ih j
      · intro y hy
        exact hpre y (by simp [hy])
      · simpa using hd

/-- The samples of the temporary ride: skip the samples before `start`, keep
the following ones up to the first that fails the `stop` test, each copied
with interval number 0. -/
theorem intervalRide_dataPoints (f : RideFile) (start stop : Dbl) :
    (intervalRide f start stop).dataPoints =
      ((f.dataPoints.dropWhile (fun p => !(Dbl.ge p.secs start))).takeWhile
          (fun p => !(Dbl.gt (Dbl.add p.secs f.recIntSecs) stop))).map
        (fun p => { p with interval := 0 }) := by
  unfold intervalRide intervalBeginSecs
  rcases firstAtOrAfter_spec start f.dataPoints 0 with ⟨h1, h2⟩ | ⟨j, h1, _, h3, q, rest, h4, h5⟩
  · have hd : f.dataPoints.dropWhile (fun p => !(Dbl.ge p.secs start)) = [] := by
      rw [List.dropWhile_eq_nil_iff]
      intro x hx
      simp [h2 x hx]
    simp [h1, hd]
  · have hd : f.dataPoints.dropWhile (fun p => !(Dbl.ge p.secs start)) = f.dataPoints.drop j := by
      apply dropWhile_eq_drop_of_prefix _ _ j _ q rest h4 (by simp [h5])
      intro x hx
      simp [h3 x hx]
    simp [h1, hd, refreshLoop_eq]

/-- On a sorted run of samples that are all at or after `start`, stopping at
the first sample that fails the `stop` test keeps the same samples as
filtering by both bounds. -/
theorem takeWhile_eq_filter_of_sorted (recIntSecs start stop : Dbl)
    (hrec : Dbl.ge recIntSecs Dbl.zero = true) (hstop : stop.isnan = false)
    (hfin : recIntSecs ≠ Dbl.pinf ∨ start ≠ Dbl.ninf)
    (xs : List RideFilePoint)
    (hsorted : xs.Pairwise (fun a b => Dbl.le a.secs b.secs = true))
    (hge : ∀ x ∈ xs, Dbl.le start x.secs = true) :
    xs.takeWhile (fun p => !(Dbl.gt (Dbl.add p.secs recIntSecs) stop)) =
      xs.filter (fun p => Dbl.le start p.secs && Dbl.le (Dbl.add p.secs recIntSecs) stop) := by
  induction xs with
  | nil => rfl
  | cons x xs ih =>
    rw [List.pairwise_cons] at hsorted
    have hx : Dbl.le start x.secs = true := hge x (by simp)
    have hxs : ∀ y ∈ xs, Dbl.le start y.secs = true := fun y hy => hge y (by simp [hy])
    by_cases h : Dbl.gt (Dbl.add x.secs recIntSecs) stop = true
    · have hnil : (x :: xs).filter
          (fun p => Dbl.le start p.secs && Dbl.le (Dbl.add p.secs recIntSecs) stop) = [] := by
        rw [List.filter_eq_nil_iff]
        intro y hy
        have hgt : Dbl.gt (Dbl.add y.secs recIntSecs) stop = true := by
          rcases List.mem_cons.1 hy with rfl | hy
          · exact h
          · exact Dbl.gt_add_mono (hsorted.1 y hy) hrec
              (Dbl.add_not_nan (hxs y hy) hrec hfin) h
        simp [Dbl.le_false_of_gt hgt]
      rw [hnil]
      simp [List.takeWhile_cons, h]
    · have hf : Dbl.gt (Dbl.add x.secs recIntSecs) stop = false := by simpa using h
      have hle : Dbl.le (Dbl.add x.secs recIntSecs) stop = true :=
        Dbl.le_of_not_gt hf (Dbl.add_not_nan hx hrec hfin) hstop
      simp only [List.takeWhile_cons, hf, Bool.not_false, if_true]
      rw [List.filter_cons_of_pos (by simp [hx, hle]), ih hsorted.2 hxs]

/-- On a sorted sample sequence, skipping to the first sample at or after
`start` and then stopping at the first failure of the `stop` test selects the
samples that satisfy both bounds. -/
theorem dropWhile_takeWhile_eq_filter_of_sorted (recIntSecs start stop : Dbl)
    (hrec : Dbl.ge recIntSecs Dbl.zero = true) (hstop : stop.isnan = false)
    (hfin : recIntSecs ≠ Dbl.pinf ∨ start ≠ Dbl.ninf)
    (xs : List RideFilePoint)
    (hsorted : xs.Pairwise (fun a b => Dbl.le a.secs b.secs = true)) :
    (xs.dropWhile (fun p => !(Dbl.ge p.secs start))).takeWhile
        (fun p => !(Dbl.gt (Dbl.add p.secs recIntSecs) stop)) =
      xs.filter (fun p => Dbl.le start p.secs && Dbl.le (Dbl.add p.secs recIntSecs) stop) := by
  induction xs with
  | nil => rfl
  | cons x xs ih =>
    by_cases h : Dbl.ge x.secs start = true
    · have hd : (x :: xs).dropWhile (fun p => !(Dbl.ge p.secs start)) = x :: xs := by
        simp [List.dropWhile_cons, h]
      rw [hd]
      apply takeWhile_eq_filter_of_sorted recIntSecs start stop hrec hstop hfin _ hsorted
      intro y hy
      rcases List.mem_cons.1 hy with rfl | hy
      · simpa [Dbl.ge] using h
      · exact Dbl.le_trans_true (by simpa [Dbl.ge] using h) ((List.pairwise_cons.1 hsorted).1 y hy)
    · have hf : Dbl.ge x.secs start = false := by simpa using h
      have hd : (x :: xs).dropWhile (fun p => !(Dbl.ge p.secs start)) =
          xs.dropWhile (fun p => !(Dbl.ge p.secs start)) := by
        simp [List.dropWhile_cons, hf]
      have hle : Dbl.le start x.secs = false := by simpa [Dbl.ge] using hf
      rw [hd, List.filter_cons_of_neg (by simp [hle])]
      exact ih (List.pairwise_cons.1 hsorted).2

/-! ## Slice membership and order -/

/-- C1: for every sample sequence sorted non-decreasingly by `secs`, every
(finite) recording interval `recIntSecs >= 0` and all bounds `start < stop`,
with the start lookup returning the index of the first sample with
`secs >= start` (or an out-of-range index), the temporary ride built by the
loop of `refresh` holds exactly the source samples with `start <= secs` and
`secs + recIntSecs <= stop`, each once, in their original order (each copied
with interval number 0): starting at the first index and breaking at the first
violation equals filtering the whole sequence by the two bounds. The sum is the
double sum of the code, rounded to the nearest double. -/
theorem C1_slice_eq_filter (f : RideFile) (start stop : Dbl)
    (hsorted : f.dataPoints.Pairwise (fun a b => Dbl.le a.secs b.secs = true))
    (hrec : Dbl.ge f.recIntSecs Dbl.zero = true)
    (hfinite : f.recIntSecs.isFinite = true)
    (hbounds : Dbl.lt start stop = true) :
    (intervalRide f start stop).dataPoints =
      (f.dataPoints.filter
        (fun p => Dbl.le start p.secs && Dbl.le (Dbl.add p.secs f.recIntSecs) stop)).map
        (fun p => { p with interval := 0 }) := by
  have hfin : f.recIntSecs ≠ Dbl.pinf ∨ start ≠ Dbl.ninf := by
    left
    intro h
    rw [h] at hfinite
    simp [Dbl.isFinite, Dbl.isinf] at hfinite
  rw [intervalRide_dataPoints,
    dropWhile_takeWhile_eq_filter_of_sorted f.recIntSecs start stop hrec
      (Dbl.not_nan_of_lt_right hbounds) hfin f.dataPoints hsorted]

/-- Scenario A: ten samples at 1-second intervals, recording interval 1, bounds
`[2, 5)`: the hypotheses of C1 hold and the slice is the samples at 2, 3, 4.
And a sample at 0.4 with recording interval 0.1 and bounds `[0, 0.5)`: the
double sum 0.4 + 0.1 is 0.5, so the sample is in the slice. -/
theorem C1_slice_eq_filter_witness :
    (tenSamples.dataPoints.Pairwise (fun a b => Dbl.le a.secs b.secs = true) ∧
     Dbl.ge tenSamples.recIntSecs Dbl.zero = true ∧
     tenSamples.recIntSecs.isFinite = true ∧
     Dbl.lt (Dbl.fin 2) (Dbl.fin 5) = true ∧
     (intervalRide tenSamples (Dbl.fin 2) (Dbl.fin 5)).dataPoints =
       (tenSamples.dataPoints.filter
         (fun p => Dbl.le (Dbl.fin 2) p.secs &&
           Dbl.le (Dbl.add p.secs tenSamples.recIntSecs) (Dbl.fin 5))).map
         (fun p => { p with interval := 0 }) ∧
     (intervalRide tenSamples (Dbl.fin 2) (Dbl.fin 5)).dataPoints.map (fun p => p.secs) =
       [Dbl.fin 2, Dbl.fin 3, Dbl.fin 4]) ∧
    ((intervalRide tenthsRide (Dbl.fin 0) (Dbl.fin (1 / 2))).dataPoints =
       (tenthsRide.dataPoints.filter
         (fun p => Dbl.le (Dbl.fin 0) p.secs &&
           Dbl.le (Dbl.add p.secs tenthsRide.recIntSecs) (Dbl.fin (1 / 2)))).map
         (fun p => { p with interval := 0 }) ∧
     Dbl.add (Dbl.fin (3602879701896397 / 9007199254740992))
       (Dbl.fin (3602879701896397 / 36028797018963968)) = Dbl.fin (1 / 2) ∧
     (intervalRide tenthsRide (Dbl.fin 0) (Dbl.fin (1 / 2))).dataPoints.length = 1) :=
  ⟨⟨by decide!, by decide!, by decide!, by decide!,
    C1_slice_eq_filter tenSamples (Dbl.fin 2) (Dbl.fin 5) (by decide!) (by decide!)
      (by decide!) (by decide!),
    by decide!⟩,
   C1_slice_eq_filter tenthsRide (Dbl.fin 0) (Dbl.fin (1 / 2)) (by decide!) (by decide!)
      (by decide!) (by decide!),
   by decide!, by decide!⟩

/-! ## The two loops that fill the cached array -/

open IntervalItem

theorem foldlM_storeComputed_length (cs : List (String × RideMetric)) (m0 m : List Dbl)
    (h : cs.foldlM storeComputed m0 = some m) : m.length = m0.length := by
  induction cs generalizing m0 with
  | nil =>
    simp only [List.foldlM_nil, pure, Option.some.injEq] at h
    rw [← h]
  | cons c cs ih =>
    rw [List.foldlM_cons] at h
    unfold storeComputed at h
    split at h
    · simp only [bind, Option.bind] at h
      rw [ih _ h, List.length_set]
    · simp [bind, Option.bind] at h

/-- The storing loop succeeds when every computed index is inside the array;
slots that no computed metric names keep their content, and with pairwise
distinct indices the slot of each computed metric holds its value. -/
theorem foldlM_storeComputed_spec (cs : List (String × RideMetric)) (m0 : List Dbl)
    (hb : ∀ e ∈ cs, e.2.index < m0.length) :
    ∃ m, cs.foldlM storeComputed m0 = some m ∧ m.length = m0.length ∧
      (∀ j, (∀ e ∈ cs, e.2.index ≠ j) → m[j]? = m0[j]?) ∧
      (cs.Pairwise (fun x y => x.2.index ≠ y.2.index) →
        ∀ e ∈ cs, m[e.2.index]? = some (e.2.value true)) := by
  induction cs generalizing m0 with
  | nil => exact ⟨m0, rfl, rfl, fun _ _ => rfl, fun _ e he => by simp at he⟩
  | cons c cs ih =>
    have hc : c.2.index < m0.length := hb c (by simp)
    obtain ⟨m, h1, h2, h3, h4⟩ := ih (m0.set c.2.index (c.2.value true))
      (fun e he => by rw [List.length_set]; exact hb e (by simp [he]))
    refine ⟨m, ?_, ?_, ?_, ?_⟩
    · rw [List.foldlM_cons]
      simp only [storeComputed, hc, if_true, bind, Option.bind]
      exact h1
    · rw [h2, List.length_set]
    · intro j hj
      rw [h3 j (fun e he => hj e (by simp [he])),
        List.getElem?_set_ne (hj c (by simp))]
    · intro hp e he
      rw [List.pairwise_cons] at hp
      rcases List.mem_cons.1 he with rfl | he
      · rw [h3 _ (fun e' he' => fun heq => hp.1 e' he' heq.symm),
          List.getElem?_set_self hc]
      · exact h4 hp.2 e he

theorem foldlM_cleanBadValue_aux (m : List Dbl) (k : Nat) (hk : k ≤ m.length) :
    ∃ mk, (List.range k).foldlM cleanBadValue m = some mk ∧
      ∀ i, mk[i]? = if i < k then (m[i]?).map cleaned else m[i]? := by
  induction k with
  | zero => exact ⟨m, rfl, fun i => by simp⟩
  | succ k ih =>
    obtain ⟨mk, h1, h2⟩ := ih (by omega)
    have hlen : mk.length = m.length := by
      by_contra hne
      rcases Nat.lt_or_gt_of_ne hne with hlt | hgt
      · have := h2 mk.length
        rw [List.getElem?_eq_none (le_refl _)] at this
        split at this
        · rw [List.getElem?_eq_getElem hlt] at this
          simp at this
        · rw [List.getElem?_eq_getElem hlt] at this
          simp at this
      · have := h2 m.length
        rw [List.getElem?_eq_getElem hgt, List.getElem?_eq_none (le_refl m.length)] at this
        simp at this
    have hkm : k < m.length := by omega
    have hmk : mk[k]? = some m[k] := by
      rw [h2 k, if_neg (lt_irrefl k), List.getElem?_eq_getElem hkm]
    rw [List.range_succ, List.foldlM_append, h1]
    simp only [bind, Option.bind, List.foldlM_cons, List.foldlM_nil, cleanBadValue, hmk]
    by_cases hbad : (m[k].isinf || m[k].isnan) = true
    · refine ⟨mk.set k Dbl.zero, by simp [hbad, pure], ?_⟩
      intro i
      rw [List.getElem?_set, h2 i]
      by_cases hik : k = i
      · subst hik
        simp [hlen, hkm, List.getElem?_eq_getElem hkm, cleaned, hbad]
      · simp only [hik, if_false]
        by_cases hlt : i < k
        · simp [hlt, Nat.lt_succ_of_lt hlt]
        · have : ¬ i < k + 1 := by omega
          simp [hlt, this]
    · refine ⟨mk, by simp [hbad, pure], ?_⟩
      intro i
      rw [h2 i]
      by_cases hik : k = i
      · subst hik
        simp [List.getElem?_eq_getElem hkm, cleaned, hbad]
      · by_cases hlt : i < k
        · simp [hlt, Nat.lt_succ_of_lt hlt]
        · have : ¬ i < k + 1 := by omega
          simp [hlt, this]

/-- The cleaning loop, run over an array of `metricCount` slots, succeeds and
replaces every infinite or NaN slot by 0. -/
theorem foldlM_cleanBadValue (m : List Dbl) :
    (List.range m.length).foldlM cleanBadValue m = some (m.map cleaned) := by
  obtain ⟨mk, h1, h2⟩ := foldlM_cleanBadValue_aux m m.length (le_refl _)
  rw [h1]
  congr 1
  apply List.ext_getElem?
  intro i
  rw [h2 i, List.getElem?_map]
  by_cases hi : i < m.length
  · simp [hi]
  · simp [hi, List.getElem?_eq_none (not_lt.1 hi)]

/-! ## The paths of `refresh` -/

theorem fill_length (n : Nat) : (fill n).length = n := by simp [fill]

/-- A start index outside the sample vector gives an empty temporary ride. -/
theorem intervalRide_nil_of_out_of_range (f : RideFile) (start stop : Dbl)
    (h : f.intervalBeginSecs start < 0 ∨
      (f.dataPoints.length : Int) ≤ f.intervalBeginSecs start) :
    (intervalRide f start stop).dataPoints = [] := by
  unfold intervalRide
  rcases h with h | h
  · simp [not_le.2 h]
  · have h0 : 0 ≤ f.intervalBeginSecs start := le_trans (Int.ofNat_nonneg _) h
    have hd : f.dataPoints.drop (f.intervalBeginSecs start).toNat = [] := by
      apply List.drop_of_length_le
      omega
    simp [h0, hd, refreshLoop]

/-- The no-op paths of `refresh`: no sample data, or an empty temporary ride. -/
theorem refresh_noop (cm : ComputeMetrics) (w : World) (it : IntervalItem) (a : Nat)
    (item : RideItem) (hptr : it.rideItem_ = some a) (hitem : w.rideItems[a]? = some item)
    (h : item.ride_ = none ∨
      ∃ f, item.ride_ = some f ∧ (intervalRide f it.start it.stop).dataPoints = []) :
    refresh cm w it = some (w, it) := by
  unfold refresh
  rcases h with h | ⟨f, h, hnil⟩
  · simp [hptr, hitem, h]
  · simp [hptr, hitem, h, hnil]

/-- The recompute path of `refresh`: the result is the cleaned array of the
stored computed values, when the storing loop stays inside the array. -/
theorem refresh_recompute (cm : ComputeMetrics) (w : World) (it : IntervalItem) (a : Nat)
    (item : RideItem) (f : RideFile) (hptr : it.rideItem_ = some a)
    (hitem : w.rideItems[a]? = some item) (hride : item.ride_ = some f)
    (hne : (intervalRide f it.start it.stop).dataPoints ≠ []) :
    refresh cm w it =
      ((cm item.context (intervalRide f it.start it.stop) item.context.athlete.zones
          item.context.athlete.hrZones w.factory.allMetrics).foldlM storeComputed
          (fill w.factory.metricCount)).map
        (fun stored => (w, { it with metrics_ := stored.map cleaned })) := by
  unfold refresh
  simp only [hptr, hitem, hride]
  rw [if_neg (by simpa using hne)]
  cases hs : (cm item.context (intervalRide f it.start it.stop) item.context.athlete.zones
      item.context.athlete.hrZones w.factory.allMetrics).foldlM storeComputed
      (fill w.factory.metricCount) with
  | none => simp
  | some stored =>
    have hlen : stored.length = w.factory.metricCount := by
      rw [foldlM_storeComputed_length _ _ _ hs, fill_length]
    have hc := foldlM_cleanBadValue stored
    rw [hlen] at hc
    simp [hc]

/-- Every successful `refresh` leaves the program state as it was, and either
leaves the record as it was or replaces the cached array by a cleaned one. -/
theorem refresh_cases (cm : ComputeMetrics) (w w1 : World) (it it1 : IntervalItem)
    (h : refresh cm w it = some (w1, it1)) :
    w1 = w ∧ (it1 = it ∨ ∃ stored, it1 = { it with metrics_ := List.map cleaned stored }) := by
  cases hptr : it.rideItem_ with
  | none => simp [refresh, hptr] at h
  | some a =>
    cases hitem : w.rideItems[a]? with
    | none => simp [refresh, hptr, hitem] at h
    | some item =>
      cases hride : item.ride_ with
      | none =>
        rw [refresh_noop cm w it a item hptr hitem (Or.inl hride)] at h
        simp only [Option.some.injEq, Prod.mk.injEq] at h
        exact ⟨h.1.symm, Or.inl h.2.symm⟩
      | some f =>
        by_cases hnil : (intervalRide f it.start it.stop).dataPoints = []
        · rw [refresh_noop cm w it a item hptr hitem (Or.inr ⟨f, hride, hnil⟩)] at h
          simp only [Option.some.injEq, Prod.mk.injEq] at h
          exact ⟨h.1.symm, Or.inl h.2.symm⟩
        · rw [refresh_recompute cm w it a item f hptr hitem hride hnil] at h
          simp only [Option.map_eq_some', Prod.mk.injEq] at h
          obtain ⟨stored, _, h1, h2⟩ := h
          refine ⟨h1.symm, Or.inr ⟨stored, ?_⟩⟩
          rw [← h2]
          simp [hptr]

/-- A `refresh` whose resulting record is known returns that record in the
unchanged program state. -/
theorem refresh_eq_of_record (cm : ComputeMetrics) (w : World) (it it1 : IntervalItem)
    (h : (refresh cm w it).map (fun r => r.2) = some it1) :
    refresh cm w it = some (w, it1) := by
  cases hr : refresh cm w it with
  | none => simp [hr] at h
  | some r =>
    obtain ⟨w1, it2⟩ := r
    have hw := (refresh_cases cm w w1 it it2 hr).1
    simp only [hr, Option.map_some', Option.some.injEq] at h
    rw [hw, ← h]

/-- A `setValues` whose update and whose refreshed record are known. -/
theorem setValues_eq_of (cm : ComputeMetrics) (w w0 : World) (it it0 it1 : IntervalItem)
    (name : String) (d1 d2 k1 k2 : Dbl)
    (hu : setValuesUpdate w it name d1 d2 k1 k2 = some (w0, it0))
    (hr : (refresh cm w0 it0).map (fun r => r.2) = some it1) :
    setValues cm w it name d1 d2 k1 k2 = some (w0, it1) := by
  simp only [setValues, hu]
  exact refresh_eq_of_record cm w0 it0 it1 hr

theorem cleaned_isFinite (v : Dbl) : (cleaned v).isFinite = true := by
  cases v <;> simp [cleaned, Dbl.isFinite, Dbl.isinf, Dbl.isnan, Dbl.zero]

/-! ## Cache overwrite, finiteness, no-op and idempotence of `refresh` -/

/-- C2: when the sample data is available and the temporary ride is not empty,
and the computed metrics have pairwise distinct indices all below
`metricCount`, `refresh` returns with a cached array `m` of length
`metricCount` in which the slot of every computed metric holds its value when
that value is finite and 0 when it is infinite or NaN, and every slot that no
computed metric names holds 0; the same array results from any previous
contents `prev` of the cache. -/
theorem C2_refresh_overwrites (cm : ComputeMetrics) (w : World) (it : IntervalItem) (a : Nat)
    (item : RideItem) (f : RideFile) (computed : List (String × RideMetric))
    (hptr : it.rideItem_ = some a) (hitem : w.rideItems[a]? = some item)
    (hride : item.ride_ = some f)
    (hne : (intervalRide f it.start it.stop).dataPoints ≠ [])
    (hcomputed : cm item.context (intervalRide f it.start it.stop) item.context.athlete.zones
      item.context.athlete.hrZones w.factory.allMetrics = computed)
    (hdistinct : computed.Pairwise (fun x y => x.2.index ≠ y.2.index))
    (hbound : ∀ e ∈ computed, e.2.index < w.factory.metricCount) :
    ∃ m : List Dbl,
      refresh cm w it = some (w, { it with metrics_ := m }) ∧
      m.length = w.factory.metricCount ∧
      (∀ e ∈ computed, m[e.2.index]? =
        some (if (e.2.value true).isinf || (e.2.value true).isnan then Dbl.zero
              else e.2.value true)) ∧
      (∀ j, j < w.factory.metricCount → (∀ e ∈ computed, e.2.index ≠ j) →
        m[j]? = some Dbl.zero) ∧
      (∀ prev : List Dbl,
        refresh cm w { it with metrics_ := prev } = some (w, { it with metrics_ := m })) := by
  obtain ⟨stored, h1, h2, h3, h4⟩ := foldlM_storeComputed_spec computed
    (fill w.factory.metricCount) (by simpa [fill_length] using hbound)
  rw [fill_length] at h2
  refine ⟨stored.map cleaned, ?_, by simp [h2], ?_, ?_, ?_⟩
  · rw [refresh_recompute cm w it a item f hptr hitem hride hne, hcomputed, h1]
    rfl
  · intro e he
    rw [List.getElem?_map, h4 hdistinct e he]
    rfl
  · intro j hj hnone
    rw [List.getElem?_map, h3 j hnone]
    simp [fill, hj, cleaned, Dbl.zero, Dbl.isinf, Dbl.isnan]
  · intro prev
    rw [refresh_recompute cm w { it with metrics_ := prev } a item f hptr hitem hride hne,
      hcomputed, h1]
    rfl

/-- C2 at a concrete input: ten samples, bounds `[2, 5)`, computed values 200
(index 0) and 3 (index 1), previous cache `[7, 7]`: the cache becomes
`[200, 3]`. -/
theorem C2_refresh_overwrites_witness :
    (∃ m : List Dbl,
      refresh sampleCompute sampleWorld (sampleItem 0 (Dbl.fin 2) (Dbl.fin 5)) =
        some (sampleWorld, { sampleItem 0 (Dbl.fin 2) (Dbl.fin 5) with metrics_ := m }) ∧
      m.length = sampleWorld.factory.metricCount ∧
      (∀ e ∈ [("avg_power", avgPower.setValue (Dbl.fin 200)),
              ("distance_mi", distanceMi.setValue (Dbl.fin 3))],
        m[e.2.index]? =
          some (if (e.2.value true).isinf || (e.2.value true).isnan then Dbl.zero
                else e.2.value true)) ∧
      (∀ j, j < sampleWorld.factory.metricCount →
        (∀ e ∈ [("avg_power", avgPower.setValue (Dbl.fin 200)),
                ("distance_mi", distanceMi.setValue (Dbl.fin 3))], e.2.index ≠ j) →
        m[j]? = some Dbl.zero) ∧
      (∀ prev : List Dbl,
        refresh sampleCompute sampleWorld
            { sampleItem 0 (Dbl.fin 2) (Dbl.fin 5) with metrics_ := prev } =
          some (sampleWorld, { sampleItem 0 (Dbl.fin 2) (Dbl.fin 5) with metrics_ := m }))) ∧
    refresh sampleCompute sampleWorld
        { sampleItem 0 (Dbl.fin 2) (Dbl.fin 5) with metrics_ := [Dbl.fin 7, Dbl.fin 7] } =
      some (sampleWorld,
        { sampleItem 0 (Dbl.fin 2) (Dbl.fin 5) with metrics_ := [Dbl.fin 200, Dbl.fin 3] }) :=
  ⟨C2_refresh_overwrites sampleCompute sampleWorld (sampleItem 0 (Dbl.fin 2) (Dbl.fin 5)) 0
    { ride_ := some tenSamples, context := sampleContext, isdirty := false } tenSamples
    [("avg_power", avgPower.setValue (Dbl.fin 200)),
     ("distance_mi", distanceMi.setValue (Dbl.fin 3))]
    rfl rfl rfl (by decide!)
    (by
      have h : (intervalRide tenSamples (Dbl.fin 2) (Dbl.fin 5)).dataPoints.length = 3 := by
        decide!
      show sampleCompute _ (intervalRide tenSamples (Dbl.fin 2) (Dbl.fin 5)) _ _ _ = _
      simp [sampleCompute, h])
    (by simp [avgPower, distanceMi, RideMetric.setValue])
    (by simp [avgPower, distanceMi, RideMetric.setValue, sampleWorld, sampleFactory,
      RideMetricFactory.metricCount]),
   refresh_eq_of_record _ _ _ _ (by decide!)⟩

/-- The update of `setValues` for a record that is not a `USER` interval with a
`rideInterval`: only the record changes. -/
theorem setValuesUpdate_unlinked (w : World) (it : IntervalItem) (name : String)
    (d1 d2 k1 k2 : Dbl) (h : it.type ≠ IntervalType.USER ∨ it.rideInterval = none) :
    setValuesUpdate w it name d1 d2 k1 k2 =
      some (w, { it with name := name, start := d1, stop := d2, startKM := k1, stopKM := k2 }) := by
  unfold setValuesUpdate
  rcases h with h | h
  · simp [h]
  · cases ht : it.type <;> simp [h]

/-- The update of `setValues` for a `USER` interval with a `rideInterval`: the
ride file interval receives the new start and stop, and the ride item is marked
dirty. -/
theorem setValuesUpdate_linked (w : World) (it : IntervalItem) (name : String)
    (d1 d2 k1 k2 : Dbl) (a b : Nat) (rideInterval : RideFileInterval) (item : RideItem)
    (ht : it.type = IntervalType.USER) (hb : it.rideInterval = some b)
    (hrec : w.rideIntervals[b]? = some rideInterval)
    (ha : it.rideItem_ = some a) (hitem : w.rideItems[a]? = some item) :
    setValuesUpdate w it name d1 d2 k1 k2 =
      some ({ w with
              rideIntervals := w.rideIntervals.set b { rideInterval with start := d1, stop := d2 },
              rideItems := w.rideItems.set a (item.setDirty true) },
            { it with name := name, start := d1, stop := d2, startKM := k1, stopKM := k2 }) := by
  unfold setValuesUpdate
  simp [ht, hb, hrec, ha, hitem]

/-- The record after the update of `setValues`, whenever the update succeeds. -/
theorem setValuesUpdate_record (w w0 : World) (it it0 : IntervalItem) (name : String)
    (d1 d2 k1 k2 : Dbl) (h : setValuesUpdate w it name d1 d2 k1 k2 = some (w0, it0)) :
    it0 = { it with name := name, start := d1, stop := d2, startKM := k1, stopKM := k2 } := by
  by_cases hl : it.type ≠ IntervalType.USER ∨ it.rideInterval = none
  · rw [setValuesUpdate_unlinked w it name d1 d2 k1 k2 hl] at h
    simp only [Option.some.injEq, Prod.mk.injEq] at h
    exact h.2.symm
  · rw [not_or, not_not] at hl
    obtain ⟨ht, hb⟩ := hl
    obtain ⟨b, hb⟩ := Option.ne_none_iff_exists'.1 hb
    cases hrec : w.rideIntervals[b]? with
    | none => simp [setValuesUpdate, ht, hb, hrec] at h
    | some rideInterval =>
      cases ha : it.rideItem_ with
      | none => simp [setValuesUpdate, ht, hb, hrec, ha] at h
      | some a =>
        cases hitem : w.rideItems[a]? with
        | none => simp [setValuesUpdate, ht, hb, hrec, ha, hitem] at h
        | some item =>
          rw [setValuesUpdate_linked w it name d1 d2 k1 k2 a b rideInterval item ht hb hrec ha
            hitem] at h
          simp only [Option.some.injEq, Prod.mk.injEq] at h
          rw [← h.2]
          simp [ha]

/-- Every reachable record has a cached array without NaN or infinite slots. -/
theorem reachable_finite (P : RideMetricFactory → Prop) (it : IntervalItem)
    (h : Reachable P it) : ∀ v ∈ it.metrics_, v.isFinite = true := by
  induction h with
  | construct factory ride name start stop startKM stopKM displaySequence color type _ =>
    intro v hv
    simp only [IntervalItem.construct, fill, List.mem_replicate] at hv
    rw [hv.2]
    rfl
  | constructDefault factory selected0 ride0 _ =>
    intro v hv
    simp only [IntervalItem.constructDefault, fill, List.mem_replicate] at hv
    rw [hv.2]
    rfl
  | attach it rideItem_ rideInterval _ ih => exact ih
  | setFrom this other _ _ _ ih => exact ih
  | setValues cm w w1 it it1 name d1 d2 k1 k2 _ _ hcall ih =>
    unfold IntervalItem.setValues at hcall
    cases hu : setValuesUpdate w it name d1 d2 k1 k2 with
    | none => simp [hu] at hcall
    | some r =>
      obtain ⟨w0, it0⟩ := r
      simp only [hu] at hcall
      have hm : it0.metrics_ = it.metrics_ := by
        rw [setValuesUpdate_record w w0 it it0 name d1 d2 k1 k2 hu]
      rcases (refresh_cases cm w0 w1 it0 it1 hcall).2 with heq | ⟨stored, heq⟩
      · rw [heq, hm]
        exact ih
      · intro v hv
        rw [heq] at hv
        obtain ⟨x, _, rfl⟩ := List.mem_map.1 hv
        exact cleaned_isFinite x
  | refresh cm w w1 it it1 _ _ hcall ih =>
    rcases (refresh_cases cm w w1 it it1 hcall).2 with heq | ⟨stored, heq⟩
    · rw [heq]
      exact ih
    · intro v hv
      rw [heq] at hv
      obtain ⟨x, _, rfl⟩ := List.mem_map.1 hv
      exact cleaned_isFinite x

/-- C3: for every record obtained from a constructor by any sequence of
`setFrom`, `setValues` and `refresh` calls (in any program states, with any
sample data and any computed metrics), after a `refresh()` that returns no slot
of the cached array is NaN or infinite. -/
theorem C3_cache_finite (it : IntervalItem) (hreach : Reachable (fun _ => True) it)
    (cm : ComputeMetrics) (w w1 : World) (it1 : IntervalItem)
    (hcall : refresh cm w it = some (w1, it1)) :
    ∀ v ∈ it1.metrics_, v.isnan = false ∧ v.isinf = false := by
  intro v hv
  have h := reachable_finite (fun _ => True) it1
    (Reachable.refresh cm w w1 it it1 trivial hreach hcall) v hv
  cases v <;> simp_all [Dbl.isFinite, Dbl.isinf, Dbl.isnan]

/-- Scenario E: a constructed record attached to the ten samples, bounds
`[2, 3)` (a slice of one sample), and a computation that returns 200 at index 0
and `+inf` at index 1: `refresh` returns, its cache has no NaN or infinite slot,
and the slot at index 1 holds 0. -/
theorem C3_cache_finite_witness :
    Reachable (fun _ => True) (sampleItem 0 (Dbl.fin 2) (Dbl.fin 3)) ∧
    (sampleCompute sampleContext (intervalRide tenSamples (Dbl.fin 2) (Dbl.fin 3))
      sampleContext.athlete.zones sampleContext.athlete.hrZones
      sampleFactory.allMetrics).map (fun e => e.2.value true) = [Dbl.fin 200, Dbl.pinf] ∧
    refresh sampleCompute sampleWorld (sampleItem 0 (Dbl.fin 2) (Dbl.fin 3)) =
      some (sampleWorld,
        { sampleItem 0 (Dbl.fin 2) (Dbl.fin 3) with metrics_ := [Dbl.fin 200, Dbl.fin 0] }) ∧
    (∀ v ∈ [Dbl.fin 200, Dbl.fin 0], v.isnan = false ∧ v.isinf = false) :=
  ⟨Reachable.attach _ (some 0) none (Reachable.construct _ _ _ _ _ _ _ _ _ _ trivial),
   by decide!,
   refresh_eq_of_record _ _ _ _ (by decide!),
   C3_cache_finite (sampleItem 0 (Dbl.fin 2) (Dbl.fin 3))
     (Reachable.attach _ (some 0) none (Reachable.construct _ _ _ _ _ _ _ _ _ _ trivial))
     sampleCompute sampleWorld sampleWorld
     { sampleItem 0 (Dbl.fin 2) (Dbl.fin 3) with metrics_ := [Dbl.fin 200, Dbl.fin 0] }
     (refresh_eq_of_record _ _ _ _ (by decide!))⟩

/-- C4: when the record is attached to an activity and the sample data is not
available (`ride_` is null), or the start lookup returns an index outside the
sample vector, or the temporary ride ends up with zero samples, `refresh`
returns with the record (so the cached array, slot for slot) and the program
state exactly as they were before the call. -/
theorem C4_refresh_defensive_noop (cm : ComputeMetrics) (w : World) (it : IntervalItem)
    (a : Nat) (item : RideItem) (hptr : it.rideItem_ = some a)
    (hitem : w.rideItems[a]? = some item)
    (h : item.ride_ = none ∨
      ∃ f, item.ride_ = some f ∧
        (f.intervalBeginSecs it.start < 0 ∨
         (f.dataPoints.length : Int) ≤ f.intervalBeginSecs it.start ∨
         (intervalRide f it.start it.stop).dataPoints.length = 0)) :
    refresh cm w it = some (w, it) ∧
      ∀ w1 it1, refresh cm w it = some (w1, it1) → it1.metrics_ = it.metrics_ := by
  have hmain : refresh cm w it = some (w, it) := by
    apply refresh_noop cm w it a item hptr hitem
    rcases h with h | ⟨f, hf, h⟩
    · exact Or.inl h
    · refine Or.inr ⟨f, hf, ?_⟩
      rcases h with h | h | h
      · exact intervalRide_nil_of_out_of_range f it.start it.stop (Or.inl h)
      · exact intervalRide_nil_of_out_of_range f it.start it.stop (Or.inr h)
      · exact List.length_eq_zero.1 h
  refine ⟨hmain, ?_⟩
  intro w1 it1 h1
  rw [hmain] at h1
  simp only [Option.some.injEq, Prod.mk.injEq] at h1
  rw [← h1.2]

/-- C4 at concrete inputs, with the previous cache `[7, 8]`: an activity
without sample data; bounds `[20, 30)` that start after the last of the ten
samples (the lookup returns -1); bounds `[2, 2.5)` that select zero samples. -/
theorem C4_refresh_defensive_noop_witness :
    (refresh sampleCompute sampleWorld
        { sampleItem 1 (Dbl.fin 2) (Dbl.fin 5) with metrics_ := [Dbl.fin 7, Dbl.fin 8] } =
      some (sampleWorld,
        { sampleItem 1 (Dbl.fin 2) (Dbl.fin 5) with metrics_ := [Dbl.fin 7, Dbl.fin 8] })) ∧
    (tenSamples.intervalBeginSecs (Dbl.fin 20) = -1 ∧
     refresh sampleCompute sampleWorld
        { sampleItem 0 (Dbl.fin 20) (Dbl.fin 30) with metrics_ := [Dbl.fin 7, Dbl.fin 8] } =
      some (sampleWorld,
        { sampleItem 0 (Dbl.fin 20) (Dbl.fin 30) with metrics_ := [Dbl.fin 7, Dbl.fin 8] })) ∧
    ((intervalRide tenSamples (Dbl.fin 2) (Dbl.fin (5 / 2))).dataPoints.length = 0 ∧
     refresh sampleCompute sampleWorld
        { sampleItem 0 (Dbl.fin 2) (Dbl.fin (5 / 2)) with metrics_ := [Dbl.fin 7, Dbl.fin 8] } =
      some (sampleWorld,
        { sampleItem 0 (Dbl.fin 2) (Dbl.fin (5 / 2)) with
          metrics_ := [Dbl.fin 7, Dbl.fin 8] })) :=
  ⟨(C4_refresh_defensive_noop sampleCompute sampleWorld
      { sampleItem 1 (Dbl.fin 2) (Dbl.fin 5) with metrics_ := [Dbl.fin 7, Dbl.fin 8] } 1
      { ride_ := none, context := sampleContext, isdirty := false } rfl rfl (Or.inl rfl)).1,
   ⟨by decide!,
   (C4_refresh_defensive_noop sampleCompute sampleWorld
      { sampleItem 0 (Dbl.fin 20) (Dbl.fin 30) with metrics_ := [Dbl.fin 7, Dbl.fin 8] } 0
      { ride_ := some tenSamples, context := sampleContext, isdirty := false } rfl rfl
      (Or.inr ⟨tenSamples, rfl, Or.inl (by decide!)⟩)).1⟩,
   ⟨by decide!,
   (C4_refresh_defensive_noop sampleCompute sampleWorld
      { sampleItem 0 (Dbl.fin 2) (Dbl.fin (5 / 2)) with metrics_ := [Dbl.fin 7, Dbl.fin 8] } 0
      { ride_ := some tenSamples, context := sampleContext, isdirty := false } rfl rfl
      (Or.inr ⟨tenSamples, rfl, Or.inr (Or.inr (by decide!))⟩)).1⟩⟩

/-- C5: calling `refresh()` twice in a row, in the same program state (bounds,
samples, zones and metric computation unchanged), gives exactly what calling it
once gives: the same record, hence the same cached array (and the second call
fails exactly when the first does). -/
theorem C5_refresh_idempotent (cm : ComputeMetrics) (w : World) (it : IntervalItem) :
    (refresh cm w it).bind (fun r => refresh cm r.1 r.2) = refresh cm w it := by
  cases hptr : it.rideItem_ with
  | none => simp [refresh, hptr]
  | some a =>
    cases hitem : w.rideItems[a]? with
    | none => simp [refresh, hptr, hitem]
    | some item =>
      cases hride : item.ride_ with
      | none =>
        have h1 := refresh_noop cm w it a item hptr hitem (Or.inl hride)
        rw [h1]
        simp [h1]
      | some f =>
        by_cases hnil : (intervalRide f it.start it.stop).dataPoints = []
        · have h1 := refresh_noop cm w it a item hptr hitem (Or.inr ⟨f, hride, hnil⟩)
          rw [h1]
          simp [h1]
        · rw [refresh_recompute cm w it a item f hptr hitem hride hnil]
          cases hs : (cm item.context (intervalRide f it.start it.stop)
              item.context.athlete.zones item.context.athlete.hrZones
              w.factory.allMetrics).foldlM storeComputed (fill w.factory.metricCount) with
          | none => simp
          | some stored =>
            simp only [Option.map_some', Option.some_bind]
            rw [refresh_recompute cm w { it with metrics_ := List.map cleaned stored } a item f
              hptr hitem hride hnil, hs]
            rfl

/-! ## Lookup by symbol -/

/-- C6: for a symbol present in the registry (descriptor `m`) and a cached
array holding `v` at the descriptor's index, `getForSymbol` with metric units
returns `v` unchanged and with imperial units returns exactly the descriptor's
unit-conversion rule applied to `v` (after writing `v` into the registered
metric object); hence the imperial result is the conversion of the metric
result. -/
theorem C6_getForSymbol_units (w : World) (it : IntervalItem) (name : String) (m : RideMetric)
    (v : Dbl) (hm : w.factory.rideMetric name = some m)
    (hv : it.metrics_[m.index]? = some v) :
    getForSymbol w it name true = some (w, v) ∧
    getForSymbol w it name false =
      some ({ w with factory := w.factory.setValue name v }, m.convert v) ∧
    (getForSymbol w it name false).map (fun r => r.2) =
      (getForSymbol w it name true).map (fun r => m.convert r.2) := by
  have hne : it.metrics_.length ≠ 0 := by
    intro h0
    rw [List.length_eq_zero.1 h0] at hv
    simp at hv
  have h1 : getForSymbol w it name true = some (w, v) := by
    simp [getForSymbol, hne, hm, hv]
  have h2 : getForSymbol w it name false =
      some ({ w with factory := w.factory.setValue name v }, m.convert v) := by
    simp [getForSymbol, hne, hm, hv, RideMetric.value, RideMetric.setValue]
  rw [h1, h2]
  simp

/-- Scenario C: registry with `avg_power` (index 0) and `distance_mi` (index 1,
km to miles by 0.621371), cached value 10.0 at index 1: `getForSymbol` gives
10.0 in metric units and 6.21371 in imperial units. -/
theorem C6_getForSymbol_units_witness :
    (getForSymbol sampleWorld
        { sampleItem 0 (Dbl.fin 2) (Dbl.fin 5) with metrics_ := [Dbl.fin 250, Dbl.fin 10] }
        "distance_mi" true = some (sampleWorld, Dbl.fin 10) ∧
     getForSymbol sampleWorld
        { sampleItem 0 (Dbl.fin 2) (Dbl.fin 5) with metrics_ := [Dbl.fin 250, Dbl.fin 10] }
        "distance_mi" false =
      some ({ sampleWorld with
                factory := sampleWorld.factory.setValue "distance_mi" (Dbl.fin 10) },
            distanceMi.convert (Dbl.fin 10)) ∧
     (getForSymbol sampleWorld
        { sampleItem 0 (Dbl.fin 2) (Dbl.fin 5) with metrics_ := [Dbl.fin 250, Dbl.fin 10] }
        "distance_mi" false).map (fun r => r.2) =
      (getForSymbol sampleWorld
        { sampleItem 0 (Dbl.fin 2) (Dbl.fin 5) with metrics_ := [Dbl.fin 250, Dbl.fin 10] }
        "distance_mi" true).map (fun r => distanceMi.convert r.2)) ∧
    distanceMi.convert (Dbl.fin 10) = Dbl.fin (621371 / 100000) :=
  ⟨C6_getForSymbol_units sampleWorld
      { sampleItem 0 (Dbl.fin 2) (Dbl.fin 5) with metrics_ := [Dbl.fin 250, Dbl.fin 10] }
      "distance_mi" distanceMi (Dbl.fin 10) (by with_unfolding_all rfl) rfl,
   by decide!⟩

/-- C7: for a symbol that the registry does not contain, or when the cached
array is empty, and for either unit choice, `getForSymbol` returns 0 and
`getStringForSymbol` returns the text "-"; both return (neither fails) and
leave the program state as it was. -/
theorem C7_unknown_symbol (w : World) (it : IntervalItem) (name : String)
    (useMetricUnits : Bool)
    (h : w.factory.rideMetric name = none ∨ it.metrics_ = []) :
    getForSymbol w it name useMetricUnits = some (w, Dbl.zero) ∧
    getStringForSymbol w it name useMetricUnits = some (w, "-") := by
  rcases h with h | h
  · by_cases hne : it.metrics_.length = 0
    · simp [getForSymbol, getStringForSymbol, hne]
    · simp [getForSymbol, getStringForSymbol, hne, h]
  · simp [getForSymbol, getStringForSymbol, h]

/-- C7 at concrete inputs: the symbol "unknown" with a cache `[250, 10]`, and
the registered symbol "avg_power" with an empty cache. -/
theorem C7_unknown_symbol_witness :
    (sampleWorld.factory.rideMetric "unknown" = none ∧
     getForSymbol sampleWorld
        { sampleItem 0 (Dbl.fin 2) (Dbl.fin 5) with metrics_ := [Dbl.fin 250, Dbl.fin 10] }
        "unknown" false = some (sampleWorld, Dbl.fin 0) ∧
     getStringForSymbol sampleWorld
        { sampleItem 0 (Dbl.fin 2) (Dbl.fin 5) with metrics_ := [Dbl.fin 250, Dbl.fin 10] }
        "unknown" false = some (sampleWorld, "-")) ∧
    (getForSymbol sampleWorld { sampleItem 0 (Dbl.fin 2) (Dbl.fin 5) with metrics_ := [] }
        "avg_power" true = some (sampleWorld, Dbl.fin 0) ∧
     getStringForSymbol sampleWorld { sampleItem 0 (Dbl.fin 2) (Dbl.fin 5) with metrics_ := [] }
        "avg_power" true = some (sampleWorld, "-")) :=
  ⟨⟨by with_unfolding_all rfl,
    C7_unknown_symbol sampleWorld
      { sampleItem 0 (Dbl.fin 2) (Dbl.fin 5) with metrics_ := [Dbl.fin 250, Dbl.fin 10] }
      "unknown" false (Or.inl (by with_unfolding_all rfl))⟩,
   C7_unknown_symbol sampleWorld { sampleItem 0 (Dbl.fin 2) (Dbl.fin 5) with metrics_ := [] }
      "avg_power" true (Or.inr rfl)⟩

/-! ## `setValues` and `setFrom` -/

/-- A `refresh` of a record attached to an activity returns, and changes at most
the cached array, when the computed indices are inside the array. -/
theorem refresh_returns (cm : ComputeMetrics) (w : World) (it : IntervalItem) (a : Nat)
    (item : RideItem) (hptr : it.rideItem_ = some a) (hitem : w.rideItems[a]? = some item)
    (hidx : ∀ f, item.ride_ = some f → (intervalRide f it.start it.stop).dataPoints ≠ [] →
      ∀ e ∈ cm item.context (intervalRide f it.start it.stop) item.context.athlete.zones
          item.context.athlete.hrZones w.factory.allMetrics,
        e.2.index < w.factory.metricCount) :
    ∃ m, refresh cm w it = some (w, { it with metrics_ := m }) := by
  cases hride : item.ride_ with
  | none => exact ⟨it.metrics_, refresh_noop cm w it a item hptr hitem (Or.inl hride)⟩
  | some f =>
    by_cases hnil : (intervalRide f it.start it.stop).dataPoints = []
    · exact ⟨it.metrics_, refresh_noop cm w it a item hptr hitem (Or.inr ⟨f, hride, hnil⟩)⟩
    · obtain ⟨stored, h1, _⟩ := foldlM_storeComputed_spec
        (cm item.context (intervalRide f it.start it.stop) item.context.athlete.zones
          item.context.athlete.hrZones w.factory.allMetrics)
        (fill w.factory.metricCount) (by simpa [fill_length] using hidx f hride hnil)
      refine ⟨stored.map cleaned, ?_⟩
      rw [refresh_recompute cm w it a item f hptr hitem hride hnil, h1]
      rfl

/-- C8: for a record attached to an activity (with a valid link when it is a
linked `USER` interval, and computed indices inside the array), `setValues`
returns; afterwards the in-memory name, start, stop, startKM and stopKM equal
the arguments. If the record's type is `USER` and it is linked to a persisted
bound record, that record holds the new start and stop and is otherwise as
before, every other persisted record is as before, and the owning activity is
marked dirty; in every other case the whole program state (all persisted
records, all dirty flags) is exactly as before the call. -/
theorem C8_setValues_write_through (cm : ComputeMetrics) (w : World) (it : IntervalItem)
    (name : String) (d1 d2 k1 k2 : Dbl) (a : Nat) (item : RideItem)
    (hptr : it.rideItem_ = some a) (hitem : w.rideItems[a]? = some item)
    (hlink : it.type = IntervalType.USER → ∀ b, it.rideInterval = some b →
      ∃ rideInterval, w.rideIntervals[b]? = some rideInterval)
    (hidx : ∀ f, item.ride_ = some f → (intervalRide f d1 d2).dataPoints ≠ [] →
      ∀ e ∈ cm item.context (intervalRide f d1 d2) item.context.athlete.zones
          item.context.athlete.hrZones w.factory.allMetrics,
        e.2.index < w.factory.metricCount) :
    ∃ w1 it1, setValues cm w it name d1 d2 k1 k2 = some (w1, it1) ∧
      it1.name = name ∧ it1.start = d1 ∧ it1.stop = d2 ∧
      it1.startKM = k1 ∧ it1.stopKM = k2 ∧
      (∀ b rideInterval, it.type = IntervalType.USER → it.rideInterval = some b →
        w.rideIntervals[b]? = some rideInterval →
          w1.rideIntervals[b]? = some { rideInterval with start := d1, stop := d2 } ∧
          (∀ b', b' ≠ b → w1.rideIntervals[b']? = w.rideIntervals[b']?) ∧
          w1.rideItems[a]? = some { item with isdirty := true }) ∧
      ((it.type ≠ IntervalType.USER ∨ it.rideInterval = none) → w1 = w) := by
  by_cases hl : it.type ≠ IntervalType.USER ∨ it.rideInterval = none
  · have hu := setValuesUpdate_unlinked w it name d1 d2 k1 k2 hl
    obtain ⟨m, hm⟩ := refresh_returns cm w
      { it with name := name, start := d1, stop := d2, startKM := k1, stopKM := k2 }
      a item hptr hitem hidx
    refine ⟨w, _, by simp only [setValues, hu]; exact hm, rfl, rfl, rfl, rfl, rfl, ?_,
      fun _ => rfl⟩
    intro b rideInterval ht hb _
    rcases hl with hl | hl
    · exact absurd ht hl
    · rw [hl] at hb
      simp at hb
  · rw [not_or, not_not] at hl
    obtain ⟨ht, hb⟩ := hl
    obtain ⟨b, hb⟩ := Option.ne_none_iff_exists'.1 hb
    obtain ⟨rideInterval, hrec⟩ := hlink ht b hb
    have hu := setValuesUpdate_linked w it name d1 d2 k1 k2 a b rideInterval item ht hb hrec
      hptr hitem
    have halen : a < w.rideItems.length := (List.getElem?_eq_some.1 hitem).1
    have hblen : b < w.rideIntervals.length := (List.getElem?_eq_some.1 hrec).1
    obtain ⟨m, hm⟩ := refresh_returns cm
      { w with
        rideIntervals := w.rideIntervals.set b { rideInterval with start := d1, stop := d2 },
        rideItems := w.rideItems.set a (item.setDirty true) }
      { it with name := name, start := d1, stop := d2, startKM := k1, stopKM := k2 }
      a (item.setDirty true) hptr (List.getElem?_set_self halen) hidx
    refine ⟨_, _, by simp only [setValues, hu]; exact hm, rfl, rfl, rfl, rfl, rfl, ?_, ?_⟩
    · intro b0 rideInterval0 _ hb0 hrec0
      rw [hb] at hb0
      simp only [Option.some.injEq] at hb0
      subst hb0
      rw [hrec] at hrec0
      simp only [Option.some.injEq] at hrec0
      subst hrec0
      refine ⟨List.getElem?_set_self hblen, ?_, List.getElem?_set_self halen⟩
      intro b' hb'
      exact List.getElem?_set_ne (Ne.symm hb')
    · intro h
      rcases h with h | h
      · exact absurd ht h
      · rw [h] at hb
        simp at hb

/-- Scenario D: a `USER` interval linked to persisted record 0 gets new bounds
`[1, 4)`: the persisted record holds start 1 and stop 4 and the activity is
dirty. A system-detected interval gets the same call: no persisted record and no
dirty flag changes. In both cases the record holds the arguments. -/
theorem C8_setValues_write_through_witness :
    ((∃ w1 it1, setValues sampleCompute sampleWorld linkedItem "climb"
          (Dbl.fin 1) (Dbl.fin 4) (Dbl.fin 7) (Dbl.fin 8) = some (w1, it1) ∧
        it1.name = "climb" ∧ it1.start = Dbl.fin 1 ∧ it1.stop = Dbl.fin 4 ∧
        it1.startKM = Dbl.fin 7 ∧ it1.stopKM = Dbl.fin 8 ∧
        (∀ b rideInterval, linkedItem.type = IntervalType.USER →
          linkedItem.rideInterval = some b →
          sampleWorld.rideIntervals[b]? = some rideInterval →
            w1.rideIntervals[b]? =
              some { rideInterval with start := Dbl.fin 1, stop := Dbl.fin 4 } ∧
            (∀ b', b' ≠ b → w1.rideIntervals[b']? = sampleWorld.rideIntervals[b']?) ∧
            w1.rideItems[0]? =
              some { ride_ := some tenSamples, context := sampleContext, isdirty := true }) ∧
        ((linkedItem.type ≠ IntervalType.USER ∨ linkedItem.rideInterval = none) →
          w1 = sampleWorld)) ∧
     (setValues sampleCompute sampleWorld linkedItem "climb"
          (Dbl.fin 1) (Dbl.fin 4) (Dbl.fin 7) (Dbl.fin 8)).map
        (fun r => (r.1.rideIntervals, r.1.rideItems.map (fun i => i.isdirty))) =
      some ([{ type := IntervalType.USER, start := Dbl.fin 1, stop := Dbl.fin 4,
               name := "lap" }],
            [true, false, false])) ∧
    (setValues sampleCompute sampleWorld systemItem "climb"
          (Dbl.fin 1) (Dbl.fin 4) (Dbl.fin 7) (Dbl.fin 8)).map
        (fun r => (r.1.rideIntervals, r.1.rideItems.map (fun i => i.isdirty),
          r.2.name, r.2.start, r.2.stop, r.2.startKM, r.2.stopKM)) =
      some ([{ type := IntervalType.USER, start := Dbl.fin 0, stop := Dbl.fin 9,
               name := "lap" }],
            [false, false, false], "climb", Dbl.fin 1, Dbl.fin 4, Dbl.fin 7, Dbl.fin 8) :=
  ⟨⟨C8_setValues_write_through sampleCompute sampleWorld linkedItem "climb"
      (Dbl.fin 1) (Dbl.fin 4) (Dbl.fin 7) (Dbl.fin 8) 0
      { ride_ := some tenSamples, context := sampleContext, isdirty := false } rfl rfl
      (fun _ b hb => by cases hb; exact ⟨_, rfl⟩)
      (by
        intro f _ _ e he
        simp only [sampleCompute, List.mem_cons, List.mem_singleton, List.not_mem_nil,
          or_false] at he
        rcases he with rfl | rfl <;>
          simp [sampleWorld, sampleFactory, RideMetricFactory.metricCount, distanceMi,
            avgPower, RideMetric.setValue]),
    by decide!⟩,
   by
    rw [setValues_eq_of sampleCompute sampleWorld sampleWorld systemItem
      { systemItem with name := "climb", start := Dbl.fin 1, stop := Dbl.fin 4,
                        startKM := Dbl.fin 7, stopKM := Dbl.fin 8 }
      { systemItem with name := "climb", start := Dbl.fin 1, stop := Dbl.fin 4,
                        startKM := Dbl.fin 7, stopKM := Dbl.fin 8,
                        metrics_ := [Dbl.fin 200, Dbl.fin 3] }
      "climb" (Dbl.fin 1) (Dbl.fin 4) (Dbl.fin 7) (Dbl.fin 8)
      (by with_unfolding_all rfl) (by decide!)]
    rfl⟩

/-- C9: for two records `this` (at address `t`) and `other` (at address `o`),
after `this.setFrom(other)` every member of `this` (name, type, bounds in
seconds and km, colour, display order, the back-references `rideItem_` and
`ride`, the cached array) equals the member of `other`, except that `selected`
is false and `rideInterval` is null; `other` is unchanged when it is a different
record (`t ≠ o`), and so is every record but `this`. -/
theorem C9_setFrom_clone (items : List IntervalItem) (t o : Nat) (this other : IntervalItem)
    (ht : items[t]? = some this) (ho : items[o]? = some other) :
    ∃ items' r, setFromAt items t o = some items' ∧ items'[t]? = some r ∧
      r = setFrom this other ∧
      r.name = other.name ∧ r.type = other.type ∧ r.start = other.start ∧
      r.stop = other.stop ∧ r.startKM = other.startKM ∧ r.stopKM = other.stopKM ∧
      r.color = other.color ∧ r.displaySequence = other.displaySequence ∧
      r.rideItem_ = other.rideItem_ ∧ r.ride = other.ride ∧ r.metrics_ = other.metrics_ ∧
      r.selected = false ∧ r.rideInterval = none ∧
      (t ≠ o → items'[o]? = some other) ∧
      (∀ k, k ≠ t → items'[k]? = items[k]?) := by
  have htlen : t < items.length := (List.getElem?_eq_some.1 ht).1
  refine ⟨items.set t (setFrom this other), setFrom this other, by simp [setFromAt, ht, ho],
    List.getElem?_set_self htlen, rfl, rfl, rfl, rfl, rfl, rfl, rfl, rfl, rfl, rfl, rfl, rfl,
    rfl, rfl, ?_, ?_⟩
  · intro hne
    rw [List.getElem?_set_ne hne, ho]
  · intro k hk
    exact List.getElem?_set_ne (Ne.symm hk)

/-- C9 at a concrete input: the default-constructed record at address 0 calls
`setFrom` on the selected, linked `USER` record at address 1. -/
theorem C9_setFrom_clone_witness :
    (∃ items' r, setFromAt sampleItems 0 1 = some items' ∧ items'[0]? = some r ∧
      r = setFrom (IntervalItem.constructDefault sampleFactory true none)
            { linkedItem with selected := true, metrics_ := [Dbl.fin 250, Dbl.fin 10] } ∧
      r.name = "effort" ∧ r.type = IntervalType.USER ∧ r.start = Dbl.fin 2 ∧
      r.stop = Dbl.fin 5 ∧ r.startKM = Dbl.fin 0 ∧ r.stopKM = Dbl.fin 1 ∧
      r.color = 255 ∧ r.displaySequence = 1 ∧
      r.rideItem_ = some 0 ∧ r.ride = none ∧ r.metrics_ = [Dbl.fin 250, Dbl.fin 10] ∧
      r.selected = false ∧ r.rideInterval = none ∧
      ((0 : Nat) ≠ 1 → items'[1]? =
        some { linkedItem with selected := true, metrics_ := [Dbl.fin 250, Dbl.fin 10] }) ∧
      (∀ k, k ≠ 0 → items'[k]? = sampleItems[k]?)) ∧
    (setFromAt sampleItems 0 1).map (fun l => l.map (fun r => (r.selected, r.rideInterval))) =
      some [(false, none), (true, some 0)] :=
  ⟨C9_setFrom_clone sampleItems 0 1 (IntervalItem.constructDefault sampleFactory true none)
      { linkedItem with selected := true, metrics_ := [Dbl.fin 250, Dbl.fin 10] } rfl rfl,
   by decide⟩

/-! ## Field preservation in the temporary ride -/

theorem getElem?_of_takeWhile {α : Type} (P : α → Bool) (l : List α) (i : Nat) (x : α)
    (h : (l.takeWhile P)[i]? = some x) : l[i]? = some x := by
  induction l generalizing i with
  | nil => simp at h
  | cons y ys ih =>
    rw [List.takeWhile_cons] at h
    split at h
    · cases i with
      | zero => simpa using h
      | succ i =>
        simp only [List.getElem?_cons_succ] at h ⊢
        exact ih i h
    · simp at h

/-- The samples of the temporary ride, by position: copies of the source
samples from the start index on. -/
theorem intervalRide_dataPoints_drop (f : RideFile) (start stop : Dbl) :
    (intervalRide f start stop).dataPoints =
      if 0 ≤ f.intervalBeginSecs start then
        List.map (fun p => { p with interval := 0 })
          ((f.dataPoints.drop (f.intervalBeginSecs start).toNat).takeWhile
            (fun p => !(Dbl.gt (Dbl.add p.secs f.recIntSecs) stop)))
      else [] := by
  unfold intervalRide
  by_cases h : 0 ≤ f.intervalBeginSecs start
  · simp [h, refreshLoop_eq]
  · simp [h]

/-- C10: the sample at position `i` of the temporary ride built by `refresh` is
made from the source sample at position `intervalBeginSecs(start) + i`: its raw
channels equal the source sample's values verbatim (whatever they are: finite,
a "no data" sentinel, NaN or infinite), and its derived fields `np`, `xp` and
`apower` equal the source sample's `np`, `xp` and `apower`. -/
theorem C10_slice_fields_preserved (f : RideFile) (start stop : Dbl) (i : Nat)
    (q : RideFilePoint) (hq : (intervalRide f start stop).dataPoints[i]? = some q) :
    ∃ p, f.dataPoints[(f.intervalBeginSecs start).toNat + i]? = some p ∧
      q.secs = p.secs ∧ q.cad = p.cad ∧ q.hr = p.hr ∧ q.km = p.km ∧ q.kph = p.kph ∧
      q.nm = p.nm ∧ q.watts = p.watts ∧ q.alt = p.alt ∧ q.lon = p.lon ∧ q.lat = p.lat ∧
      q.headwind = p.headwind ∧ q.slope = p.slope ∧ q.temp = p.temp ∧
      q.lrbalance = p.lrbalance ∧ q.lte = p.lte ∧ q.rte = p.rte ∧ q.lps = p.lps ∧
      q.rps = p.rps ∧ q.lpco = p.lpco ∧ q.rpco = p.rpco ∧ q.lppb = p.lppb ∧ q.rppb = p.rppb ∧
      q.lppe = p.lppe ∧ q.rppe = p.rppe ∧ q.lpppb = p.lpppb ∧ q.rpppb = p.rpppb ∧
      q.lpppe = p.lpppe ∧ q.rpppe = p.rpppe ∧ q.smo2 = p.smo2 ∧ q.thb = p.thb ∧
      q.rvert = p.rvert ∧ q.rcad = p.rcad ∧ q.rcontact = p.rcontact ∧ q.np = p.np ∧
      q.xp = p.xp ∧ q.apower = p.apower := by
  rw [intervalRide_dataPoints_drop] at hq
  split at hq
  · rw [List.getElem?_map] at hq
    obtain ⟨p, hp, rfl⟩ := Option.map_eq_some'.1 hq
    have hp2 := getElem?_of_takeWhile _ _ _ _ hp
    rw [List.getElem?_drop] at hp2
    exact ⟨p, hp2, rfl, rfl, rfl, rfl, rfl, rfl, rfl, rfl, rfl, rfl, rfl, rfl, rfl, rfl, rfl, rfl, rfl, rfl, rfl, rfl, rfl, rfl, rfl, rfl, rfl, rfl, rfl, rfl, rfl, rfl, rfl, rfl, rfl, rfl, rfl, rfl⟩
  · simp at hq

/-- C10 at a concrete input: ten samples, bounds `[2, 5)`; the sample at
position 1 of the temporary ride is made from the source sample at position 3,
with its NaN heart rate, its `-255` temperature and its derived data. -/
theorem C10_slice_fields_preserved_witness :
    (intervalRide tenSamples (Dbl.fin 2) (Dbl.fin 5)).dataPoints[1]? =
      some { samplePoint (Dbl.fin 3) with interval := 0 } ∧
    (∃ p, tenSamples.dataPoints[(tenSamples.intervalBeginSecs (Dbl.fin 2)).toNat + 1]? = some p ∧
      ({ samplePoint (Dbl.fin 3) with interval := 0 } : RideFilePoint).secs = p.secs ∧
      ({ samplePoint (Dbl.fin 3) with interval := 0 } : RideFilePoint).cad = p.cad ∧
      ({ samplePoint (Dbl.fin 3) with interval := 0 } : RideFilePoint).hr = p.hr ∧
      ({ samplePoint (Dbl.fin 3) with interval := 0 } : RideFilePoint).km = p.km ∧
      ({ samplePoint (Dbl.fin 3) with interval := 0 } : RideFilePoint).kph = p.kph ∧
      ({ samplePoint (Dbl.fin 3) with interval := 0 } : RideFilePoint).nm = p.nm ∧
      ({ samplePoint (Dbl.fin 3) with interval := 0 } : RideFilePoint).watts = p.watts ∧
      ({ samplePoint (Dbl.fin 3) with interval := 0 } : RideFilePoint).alt = p.alt ∧
      ({ samplePoint (Dbl.fin 3) with interval := 0 } : RideFilePoint).lon = p.lon ∧
      ({ samplePoint (Dbl.fin 3) with interval := 0 } : RideFilePoint).lat = p.lat ∧
      ({ samplePoint (Dbl.fin 3) with interval := 0 } : RideFilePoint).headwind = p.headwind ∧
      ({ samplePoint (Dbl.fin 3) with interval := 0 } : RideFilePoint).slope = p.slope ∧
      ({ samplePoint (Dbl.fin 3) with interval := 0 } : RideFilePoint).temp = p.temp ∧
      ({ samplePoint (Dbl.fin 3) with interval := 0 } : RideFilePoint).lrbalance = p.lrbalance ∧
      ({ samplePoint (Dbl.fin 3) with interval := 0 } : RideFilePoint).lte = p.lte ∧
      ({ samplePoint (Dbl.fin 3) with interval := 0 } : RideFilePoint).rte = p.rte ∧
      ({ samplePoint (Dbl.fin 3) with interval := 0 } : RideFilePoint).lps = p.lps ∧
      ({ samplePoint (Dbl.fin 3) with interval := 0 } : RideFilePoint).rps = p.rps ∧
      ({ samplePoint (Dbl.fin 3) with interval := 0 } : RideFilePoint).lpco = p.lpco ∧
      ({ samplePoint (Dbl.fin 3) with interval := 0 } : RideFilePoint).rpco = p.rpco ∧
      ({ samplePoint (Dbl.fin 3) with interval := 0 } : RideFilePoint).lppb = p.lppb ∧
      ({ samplePoint (Dbl.fin 3) with interval := 0 } : RideFilePoint).rppb = p.rppb ∧
      ({ samplePoint (Dbl.fin 3) with interval := 0 } : RideFilePoint).lppe = p.lppe ∧
      ({ samplePoint (Dbl.fin 3) with interval := 0 } : RideFilePoint).rppe = p.rppe ∧
      ({ samplePoint (Dbl.fin 3) with interval := 0 } : RideFilePoint).lpppb = p.lpppb ∧
      ({ samplePoint (Dbl.fin 3) with interval := 0 } : RideFilePoint).rpppb = p.rpppb ∧
      ({ samplePoint (Dbl.fin 3) with interval := 0 } : RideFilePoint).lpppe = p.lpppe ∧
      ({ samplePoint (Dbl.fin 3) with interval := 0 } : RideFilePoint).rpppe = p.rpppe ∧
      ({ samplePoint (Dbl.fin 3) with interval := 0 } : RideFilePoint).smo2 = p.smo2 ∧
      ({ samplePoint (Dbl.fin 3) with interval := 0 } : RideFilePoint).thb = p.thb ∧
      ({ samplePoint (Dbl.fin 3) with interval := 0 } : RideFilePoint).rvert = p.rvert ∧
      ({ samplePoint (Dbl.fin 3) with interval := 0 } : RideFilePoint).rcad = p.rcad ∧
      ({ samplePoint (Dbl.fin 3) with interval := 0 } : RideFilePoint).rcontact = p.rcontact ∧
      ({ samplePoint (Dbl.fin 3) with interval := 0 } : RideFilePoint).np = p.np ∧
      ({ samplePoint (Dbl.fin 3) with interval := 0 } : RideFilePoint).xp = p.xp ∧
      ({ samplePoint (Dbl.fin 3) with interval := 0 } : RideFilePoint).apower = p.apower) ∧
    tenSamples.dataPoints[(tenSamples.intervalBeginSecs (Dbl.fin 2)).toNat + 1]? =
      some (samplePoint (Dbl.fin 3)) :=
  ⟨by decide!,
   C10_slice_fields_preserved tenSamples (Dbl.fin 2) (Dbl.fin 5) 1
     { samplePoint (Dbl.fin 3) with interval := 0 } (by decide!),
   by decide!⟩

/-! ## Fresh records -/

/-- A successful `refresh` keeps the cached array or replaces it by one of
`metricCount` slots. -/
theorem refresh_metrics_length (cm : ComputeMetrics) (w w1 : World) (it it1 : IntervalItem)
    (h : refresh cm w it = some (w1, it1)) :
    it1.metrics_ = it.metrics_ ∨ it1.metrics_.length = w.factory.metricCount := by
  cases hptr : it.rideItem_ with
  | none => simp [refresh, hptr] at h
  | some a =>
    cases hitem : w.rideItems[a]? with
    | none => simp [refresh, hptr, hitem] at h
    | some item =>
      cases hride : item.ride_ with
      | none =>
        rw [refresh_noop cm w it a item hptr hitem (Or.inl hride)] at h
        simp only [Option.some.injEq, Prod.mk.injEq] at h
        exact Or.inl (by rw [← h.2])
      | some f =>
        by_cases hnil : (intervalRide f it.start it.stop).dataPoints = []
        · rw [refresh_noop cm w it a item hptr hitem (Or.inr ⟨f, hride, hnil⟩)] at h
          simp only [Option.some.injEq, Prod.mk.injEq] at h
          exact Or.inl (by rw [← h.2])
        · rw [refresh_recompute cm w it a item f hptr hitem hride hnil] at h
          simp only [Option.map_eq_some', Prod.mk.injEq] at h
          obtain ⟨stored, hs, _, h2⟩ := h
          right
          rw [← h2]
          simp only [List.length_map]
          rw [foldlM_storeComputed_length _ _ _ hs, fill_length]

/-- The update of `setValues` does not touch the metric registry. -/
theorem setValuesUpdate_factory (w w0 : World) (it it0 : IntervalItem) (name : String)
    (d1 d2 k1 k2 : Dbl) (h : setValuesUpdate w it name d1 d2 k1 k2 = some (w0, it0)) :
    w0.factory = w.factory := by
  by_cases hl : it.type ≠ IntervalType.USER ∨ it.rideInterval = none
  · rw [setValuesUpdate_unlinked w it name d1 d2 k1 k2 hl] at h
    simp only [Option.some.injEq, Prod.mk.injEq] at h
    rw [← h.1]
  · rw [not_or, not_not] at hl
    obtain ⟨ht, hb⟩ := hl
    obtain ⟨b, hb⟩ := Option.ne_none_iff_exists'.1 hb
    cases hrec : w.rideIntervals[b]? with
    | none => simp [setValuesUpdate, ht, hb, hrec] at h
    | some rideInterval =>
      cases ha : it.rideItem_ with
      | none => simp [setValuesUpdate, ht, hb, hrec, ha] at h
      | some a =>
        cases hitem : w.rideItems[a]? with
        | none => simp [setValuesUpdate, ht, hb, hrec, ha, hitem] at h
        | some item =>
          rw [setValuesUpdate_linked w it name d1 d2 k1 k2 a b rideInterval item ht hb hrec ha
            hitem] at h
          simp only [Option.some.injEq, Prod.mk.injEq] at h
          rw [← h.1]

/-- A successful `setValues` keeps the cached array or replaces it by one of
`metricCount` slots. -/
theorem setValues_metrics_length (cm : ComputeMetrics) (w w1 : World) (it it1 : IntervalItem)
    (name : String) (d1 d2 k1 k2 : Dbl)
    (h : setValues cm w it name d1 d2 k1 k2 = some (w1, it1)) :
    it1.metrics_ = it.metrics_ ∨ it1.metrics_.length = w.factory.metricCount := by
  unfold IntervalItem.setValues at h
  cases hu : setValuesUpdate w it name d1 d2 k1 k2 with
  | none => simp [hu] at h
  | some r =>
    obtain ⟨w0, it0⟩ := r
    simp only [hu] at h
    have hm : it0.metrics_ = it.metrics_ := by
      rw [setValuesUpdate_record w w0 it it0 name d1 d2 k1 k2 hu]
    have hf := setValuesUpdate_factory w w0 it it0 name d1 d2 k1 k2 hu
    rcases refresh_metrics_length cm w0 w1 it0 it1 h with h1 | h1
    · exact Or.inl (h1.trans hm)
    · exact Or.inr (by rw [h1, hf])

/-- With a registry of `n` metrics, every reachable record has a cached array
of `n` slots. -/
theorem reachable_length (n : Nat) (it : IntervalItem)
    (h : Reachable (fun factory => factory.metricCount = n) it) : it.metrics_.length = n := by
  induction h with
  | construct factory ride name start stop startKM stopKM displaySequence color type hP =>
    simp only [IntervalItem.construct, fill_length]
    exact hP
  | constructDefault factory selected0 ride0 hP =>
    simp only [IntervalItem.constructDefault, fill_length]
    exact hP
  | attach it rideItem_ rideInterval _ ih => exact ih
  | setFrom this other _ _ _ ih => exact ih
  | setValues cm w w1 it it1 name d1 d2 k1 k2 hP _ hcall ih =>
    rcases setValues_metrics_length cm w w1 it it1 name d1 d2 k1 k2 hcall with h1 | h1
    · rw [h1]
      exact ih
    · rw [h1]
      exact hP
  | refresh cm w w1 it it1 hP _ hcall ih =>
    rcases refresh_metrics_length cm w w1 it it1 hcall with h1 | h1
    · rw [h1]
      exact ih
    · rw [h1]
      exact hP

/-- C12: with a fixed registry of `n` metrics, after either constructor the
cached array is `n` zeros, and every record reached from there by `setFrom`,
`setValues` and `refresh` calls has a cached array of length `n`; in
particular one more `refresh` (on its no-op or its recompute path), one more
`setValues` or one more `setFrom` leaves the length equal to `n`. -/
theorem C12_cache_length (n : Nat) (it : IntervalItem)
    (hreach : Reachable (fun factory => factory.metricCount = n) it) :
    it.metrics_.length = n ∧
    (∀ factory ride name start stop startKM stopKM displaySequence color type,
      factory.metricCount = n →
      (IntervalItem.construct factory ride name start stop startKM stopKM displaySequence
        color type).metrics_ = List.replicate n Dbl.zero) ∧
    (∀ factory selected0 ride0, factory.metricCount = n →
      (IntervalItem.constructDefault factory selected0 ride0).metrics_ =
        List.replicate n Dbl.zero) ∧
    (∀ cm w w1 it1, w.factory.metricCount = n → refresh cm w it = some (w1, it1) →
      it1.metrics_.length = n) ∧
    (∀ cm w w1 it1 name d1 d2 k1 k2, w.factory.metricCount = n →
      setValues cm w it name d1 d2 k1 k2 = some (w1, it1) → it1.metrics_.length = n) ∧
    (∀ other, Reachable (fun factory => factory.metricCount = n) other →
      (setFrom it other).metrics_.length = n ∧ (setFrom other it).metrics_.length = n) := by
  refine ⟨reachable_length n it hreach, ?_, ?_, ?_, ?_, ?_⟩
  · intro factory _ _ _ _ _ _ _ _ _ hn
    simp [IntervalItem.construct, fill, hn]
  · intro factory _ _ hn
    simp [IntervalItem.constructDefault, fill, hn]
  · intro cm w w1 it1 hn hcall
    exact reachable_length n it1 (Reachable.refresh cm w w1 it it1 hn hreach hcall)
  · intro cm w w1 it1 name d1 d2 k1 k2 hn hcall
    exact reachable_length n it1
      (Reachable.setValues cm w w1 it it1 name d1 d2 k1 k2 hn hreach hcall)
  · intro other hother
    exact ⟨reachable_length n other hother, reachable_length n it hreach⟩

/-- C12 at a concrete input: the registry of two metrics; the record obtained
by constructing, attaching to the ten samples and refreshing for the bounds
`[2, 5)` has the cache `[200, 3]`, of length 2. -/
theorem C12_cache_length_witness :
    Reachable (fun factory => factory.metricCount = 2)
      { sampleItem 0 (Dbl.fin 2) (Dbl.fin 5) with metrics_ := [Dbl.fin 200, Dbl.fin 3] } ∧
    ([Dbl.fin 200, Dbl.fin 3] : List Dbl).length = 2 :=
  ⟨Reachable.refresh sampleCompute sampleWorld sampleWorld (sampleItem 0 (Dbl.fin 2) (Dbl.fin 5))
      _ rfl (Reachable.attach _ (some 0) none (Reachable.construct _ _ _ _ _ _ _ _ _ _ rfl))
      (refresh_eq_of_record _ _ _ _ (by decide!)),
   (C12_cache_length 2
      { sampleItem 0 (Dbl.fin 2) (Dbl.fin 5) with metrics_ := [Dbl.fin 200, Dbl.fin 3] }
      (Reachable.refresh sampleCompute sampleWorld sampleWorld
        (sampleItem 0 (Dbl.fin 2) (Dbl.fin 5)) _ rfl
        (Reachable.attach _ (some 0) none (Reachable.construct _ _ _ _ _ _ _ _ _ _ rfl))
        (refresh_eq_of_record _ _ _ _ (by decide!)))).1⟩

/-! ## Bounds -/

/-- A successful `refresh` leaves the program state as it was and changes at
most the cached array of the record. -/
theorem refresh_frame (cm : ComputeMetrics) (w w1 : World) (it it1 : IntervalItem)
    (h : refresh cm w it = some (w1, it1)) :
    w1 = w ∧ it1 = { it with metrics_ := it1.metrics_ } := by
  obtain ⟨hw, hit | ⟨stored, hit⟩⟩ := refresh_cases cm w w1 it it1 h
  · exact ⟨hw, by rw [hit]⟩
  · exact ⟨hw, by rw [hit]⟩

/-- The record after a successful `setValues`: the arguments in the name and
the bounds, possibly a new cached array, every other member as before. -/
theorem setValues_record (cm : ComputeMetrics) (w w1 : World) (it it1 : IntervalItem)
    (name : String) (d1 d2 k1 k2 : Dbl)
    (h : setValues cm w it name d1 d2 k1 k2 = some (w1, it1)) :
    it1 = { it with name := name, start := d1, stop := d2, startKM := k1, stopKM := k2,
                    metrics_ := it1.metrics_ } := by
  unfold IntervalItem.setValues at h
  cases hu : setValuesUpdate w it name d1 d2 k1 k2 with
  | none => simp [hu] at h
  | some r =>
    obtain ⟨w0, it0⟩ := r
    simp only [hu] at h
    have h0 := setValuesUpdate_record w w0 it it0 name d1 d2 k1 k2 hu
    have h1 := (refresh_frame cm w0 w1 it0 it1 h).2
    rw [h1, h0]

/-- C13 (as stated) fails: the constructor and `setValues` store the bounds
they are given without comparing them; with start 5, stop 2, startKM 3 and
stopKM 1 the record has `start > stop` and `startKM > stopKM`. -/
theorem C13_bounds_counterexample :
    Dbl.le (IntervalItem.construct sampleFactory none "effort" (Dbl.fin 5) (Dbl.fin 2)
        (Dbl.fin 3) (Dbl.fin 1) 1 255 IntervalType.USER).start
      (IntervalItem.construct sampleFactory none "effort" (Dbl.fin 5) (Dbl.fin 2)
        (Dbl.fin 3) (Dbl.fin 1) 1 255 IntervalType.USER).stop = false ∧
    Dbl.le (IntervalItem.construct sampleFactory none "effort" (Dbl.fin 5) (Dbl.fin 2)
        (Dbl.fin 3) (Dbl.fin 1) 1 255 IntervalType.USER).startKM
      (IntervalItem.construct sampleFactory none "effort" (Dbl.fin 5) (Dbl.fin 2)
        (Dbl.fin 3) (Dbl.fin 1) 1 255 IntervalType.USER).stopKM = false ∧
    (setValues sampleCompute sampleWorld (sampleItem 0 (Dbl.fin 2) (Dbl.fin 5)) "effort"
        (Dbl.fin 5) (Dbl.fin 2) (Dbl.fin 3) (Dbl.fin 1)).map
      (fun r => (Dbl.le r.2.start r.2.stop, Dbl.le r.2.startKM r.2.stopKM)) =
      some (false, false) := by
  decide!

/-- C13 (amended): the bounds of a record are the arguments as they were
passed. A record produced by the constructor or by `setValues` satisfies
`start <= stop` exactly when the `start` and `stop` arguments do, and
`startKM <= stopKM` exactly when the `startKM` and `stopKM` arguments do; the
default constructor gives the bounds 0 and 0, which satisfy both; `setFrom`
gives the bounds of `other`, so its result satisfies them exactly when `other`
does. -/
theorem C13_bounds_follow_arguments (cm : ComputeMetrics) (w w1 : World)
    (it it1 : IntervalItem) (name : String) (d1 d2 k1 k2 : Dbl)
    (hcall : setValues cm w it name d1 d2 k1 k2 = some (w1, it1)) :
    (Dbl.le it1.start it1.stop = Dbl.le d1 d2 ∧
     Dbl.le it1.startKM it1.stopKM = Dbl.le k1 k2) ∧
    (∀ factory ride name start stop startKM stopKM displaySequence color type,
      Dbl.le (IntervalItem.construct factory ride name start stop startKM stopKM
          displaySequence color type).start
        (IntervalItem.construct factory ride name start stop startKM stopKM
          displaySequence color type).stop = Dbl.le start stop ∧
      Dbl.le (IntervalItem.construct factory ride name start stop startKM stopKM
          displaySequence color type).startKM
        (IntervalItem.construct factory ride name start stop startKM stopKM
          displaySequence color type).stopKM = Dbl.le startKM stopKM) ∧
    (∀ factory selected0 ride0,
      Dbl.le (IntervalItem.constructDefault factory selected0 ride0).start
        (IntervalItem.constructDefault factory selected0 ride0).stop = true ∧
      Dbl.le (IntervalItem.constructDefault factory selected0 ride0).startKM
        (IntervalItem.constructDefault factory selected0 ride0).stopKM = true) ∧
    (∀ this other,
      Dbl.le (setFrom this other).start (setFrom this other).stop =
        Dbl.le other.start other.stop ∧
      Dbl.le (setFrom this other).startKM (setFrom this other).stopKM =
        Dbl.le other.startKM other.stopKM) := by
  have hrec := setValues_record cm w w1 it it1 name d1 d2 k1 k2 hcall
  refine ⟨?_, fun _ _ _ _ _ _ _ _ _ _ => ⟨rfl, rfl⟩, fun _ _ _ => ⟨?_, ?_⟩,
    fun _ _ => ⟨rfl, rfl⟩⟩
  · rw [hrec]
    exact ⟨rfl, rfl⟩
  · simp [IntervalItem.constructDefault, Dbl.le, Dbl.zero]
  · simp [IntervalItem.constructDefault, Dbl.le, Dbl.zero]

/-- C13 at a concrete input: `setValues` with the ordered bounds `[1, 4)` and
`[7, 8)` km on the linked `USER` record gives a record with `start <= stop` and
`startKM <= stopKM`. -/
theorem C13_bounds_follow_arguments_witness :
    setValues sampleCompute sampleWorld linkedItem "climb"
        (Dbl.fin 1) (Dbl.fin 4) (Dbl.fin 7) (Dbl.fin 8) = some (climbWorld, climbItem) ∧
    Dbl.le (Dbl.fin 1) (Dbl.fin 4) = true ∧ Dbl.le (Dbl.fin 7) (Dbl.fin 8) = true ∧
    (Dbl.le climbItem.start climbItem.stop = Dbl.le (Dbl.fin 1) (Dbl.fin 4) ∧
     Dbl.le climbItem.startKM climbItem.stopKM = Dbl.le (Dbl.fin 7) (Dbl.fin 8)) :=
  ⟨setValues_eq_of sampleCompute sampleWorld climbWorld linkedItem
      { linkedItem with name := "climb", start := Dbl.fin 1, stop := Dbl.fin 4,
                        startKM := Dbl.fin 7, stopKM := Dbl.fin 8 }
      climbItem "climb" (Dbl.fin 1) (Dbl.fin 4) (Dbl.fin 7) (Dbl.fin 8)
      (by with_unfolding_all rfl) (by decide!),
   by decide!, by decide!,
   (C13_bounds_follow_arguments sampleCompute sampleWorld climbWorld linkedItem climbItem
      "climb" (Dbl.fin 1) (Dbl.fin 4) (Dbl.fin 7) (Dbl.fin 8)
      (setValues_eq_of sampleCompute sampleWorld climbWorld linkedItem
        { linkedItem with name := "climb", start := Dbl.fin 1, stop := Dbl.fin 4,
                          startKM := Dbl.fin 7, stopKM := Dbl.fin 8 }
        climbItem "climb" (Dbl.fin 1) (Dbl.fin 4) (Dbl.fin 7) (Dbl.fin 8)
        (by with_unfolding_all rfl) (by decide!))).1⟩

/-! ## The registry under lookup -/

theorem setValueIn_forall₂ (name : String) (v : Dbl) (ms : List RideMetric) :
    List.Forall₂ (fun m m' => m' = { m with value_ := m'.value_ }) ms
      (RideMetricFactory.setValueIn name v ms) := by
  induction ms with
  | nil => exact List.Forall₂.nil
  | cons m ms ih =>
    unfold RideMetricFactory.setValueIn
    split
    · refine List.Forall₂.cons rfl ?_
      exact List.forall₂_same.2 (fun _ _ => rfl)
    · exact List.Forall₂.cons rfl ih

theorem setValueIn_other (name : String) (v : Dbl) (ms : List RideMetric) (i : Nat)
    (m : RideMetric) (hm : ms[i]? = some m) (hne : m.symbol ≠ name) :
    (RideMetricFactory.setValueIn name v ms)[i]? = some m := by
  induction ms generalizing i with
  | nil => simp at hm
  | cons x xs ih =>
    unfold RideMetricFactory.setValueIn
    cases i with
    | zero =>
      simp only [List.getElem?_cons_zero, Option.some.injEq] at hm
      subst hm
      have hx : (x.symbol == name) = false := by simpa using hne
      simp [hx]
    | succ i =>
      simp only [List.getElem?_cons_succ] at hm
      split
      · simpa using hm
      · simpa using ih i hm

/-- The program state after a lookup: as before, or as before but for a value
written into the registered metric object with the looked-up symbol. -/
theorem lookup_world (w w1 : World) (it : IntervalItem) (name : String) (u : Bool) (v : Dbl)
    (t : String)
    (h : getForSymbol w it name u = some (w1, v) ∨
      getStringForSymbol w it name u = some (w1, t)) :
    w1 = w ∨ ∃ x, w1 = { w with factory := w.factory.setValue name x } := by
  by_cases hne : it.metrics_.length = 0
  · rcases h with h | h
    · simp [getForSymbol, hne] at h
      exact Or.inl h.1.symm
    · simp [getStringForSymbol, hne] at h
      exact Or.inl h.1.symm
  · cases hm : w.factory.rideMetric name with
    | none =>
      rcases h with h | h
      · simp [getForSymbol, hne, hm] at h
        exact Or.inl h.1.symm
      · simp [getStringForSymbol, hne, hm] at h
        exact Or.inl h.1.symm
    | some m =>
      cases hv : it.metrics_[m.index]? with
      | none =>
        rcases h with h | h
        · simp [getForSymbol, hne, hm, hv] at h
        · simp [getStringForSymbol, hne, hm, hv] at h
      | some x =>
        rcases h with h | h
        · cases u with
          | true =>
            simp [getForSymbol, hne, hm, hv] at h
            exact Or.inl h.1.symm
          | false =>
            simp [getForSymbol, hne, hm, hv] at h
            exact Or.inr ⟨x, h.1.symm⟩
        · simp [getStringForSymbol, hne, hm, hv] at h
          exact Or.inr ⟨_, h.1.symm⟩

/-- C14 (as stated) fails: with the cached value 10 at index 1, `getForSymbol`
with imperial units and `getStringForSymbol` write 10 into the registered
metric object `distance_mi`, whose value was 0 before the call. -/
theorem C14_registry_counterexample :
    sampleWorld.factory.metrics.map (fun m => m.value_) = [Dbl.fin 0, Dbl.fin 0] ∧
    (getForSymbol sampleWorld
        { sampleItem 0 (Dbl.fin 2) (Dbl.fin 5) with metrics_ := [Dbl.fin 250, Dbl.fin 10] }
        "distance_mi" false).map (fun r => r.1.factory.metrics.map (fun m => m.value_)) =
      some [Dbl.fin 0, Dbl.fin 10] ∧
    (getStringForSymbol sampleWorld
        { sampleItem 0 (Dbl.fin 2) (Dbl.fin 5) with metrics_ := [Dbl.fin 250, Dbl.fin 10] }
        "distance_mi" true).map (fun r => r.1.factory.metrics.map (fun m => m.value_)) =
      some [Dbl.fin 0, Dbl.fin 10] := by
  decide!

/-- C14 (amended): a lookup by `getForSymbol` or `getStringForSymbol` that
returns leaves the activities and the persisted bound records as they were,
and leaves the registry with the same metric objects in the same order, each
with its symbol, index, unit-conversion rule and formatting unchanged; only the
value carried by a registered metric object may change, and only for an object
with the looked-up symbol. `getForSymbol` with metric units changes nothing. -/
theorem C14_lookup_registry_frame (w w1 : World) (it : IntervalItem) (name : String)
    (u : Bool) (v : Dbl) (t : String)
    (h : getForSymbol w it name u = some (w1, v) ∨
      getStringForSymbol w it name u = some (w1, t)) :
    w1.rideItems = w.rideItems ∧ w1.rideIntervals = w.rideIntervals ∧
    List.Forall₂ (fun m m' => m' = { m with value_ := m'.value_ })
      w.factory.metrics w1.factory.metrics ∧
    (∀ (i : Nat) (m : RideMetric), w.factory.metrics[i]? = some m → m.symbol ≠ name →
      w1.factory.metrics[i]? = some m) ∧
    (∀ w2 v2, getForSymbol w it name true = some (w2, v2) → w2 = w) := by
  have hlast : ∀ w2 v2, getForSymbol w it name true = some (w2, v2) → w2 = w := by
    intro w2 v2 h2
    by_cases hne : it.metrics_.length = 0
    · simp [getForSymbol, hne] at h2
      exact h2.1.symm
    · cases hm : w.factory.rideMetric name with
      | none =>
        simp [getForSymbol, hne, hm] at h2
        exact h2.1.symm
      | some m =>
        cases hv : it.metrics_[m.index]? with
        | none => simp [getForSymbol, hne, hm, hv] at h2
        | some x =>
          simp [getForSymbol, hne, hm, hv] at h2
          exact h2.1.symm
  rcases lookup_world w w1 it name u v t h with rfl | ⟨x, rfl⟩
  · exact ⟨rfl, rfl, List.forall₂_same.2 (fun _ _ => rfl), fun _ _ hm _ => hm, hlast⟩
  · exact ⟨rfl, rfl, setValueIn_forall₂ name x _,
      fun i m hm hne => setValueIn_other name x w.factory.metrics i m hm hne, hlast⟩

/-- C14 at a concrete input: the imperial lookup of `distance_mi` with the
cached value 10 changes the value carried by `distance_mi` and nothing else. -/
theorem C14_lookup_registry_frame_witness :
    getForSymbol sampleWorld
        { sampleItem 0 (Dbl.fin 2) (Dbl.fin 5) with metrics_ := [Dbl.fin 250, Dbl.fin 10] }
        "distance_mi" false =
      some ({ sampleWorld with
              factory := { metrics := [avgPower, { distanceMi with value_ := Dbl.fin 10 }] } },
            distanceMi.convert (Dbl.fin 10)) ∧
    (sampleWorld.rideItems = sampleWorld.rideItems ∧
     sampleWorld.rideIntervals = sampleWorld.rideIntervals ∧
     List.Forall₂ (fun m m' => m' = { m with value_ := m'.value_ })
       [avgPower, distanceMi] [avgPower, { distanceMi with value_ := Dbl.fin 10 }] ∧
     (∀ (i : Nat) (m : RideMetric), sampleWorld.factory.metrics[i]? = some m →
       m.symbol ≠ "distance_mi" →
       [avgPower, { distanceMi with value_ := Dbl.fin 10 }][i]? = some m) ∧
     (∀ w2 v2, getForSymbol sampleWorld
        { sampleItem 0 (Dbl.fin 2) (Dbl.fin 5) with metrics_ := [Dbl.fin 250, Dbl.fin 10] }
        "distance_mi" true = some (w2, v2) → w2 = sampleWorld)) :=
  ⟨by with_unfolding_all rfl,
   C14_lookup_registry_frame sampleWorld
     { sampleWorld with
       factory := { metrics := [avgPower, { distanceMi with value_ := Dbl.fin 10 }] } }
     { sampleItem 0 (Dbl.fin 2) (Dbl.fin 5) with metrics_ := [Dbl.fin 250, Dbl.fin 10] }
     "distance_mi" false (distanceMi.convert (Dbl.fin 10)) ""
     (Or.inl (by with_unfolding_all rfl))⟩

/-! ## Formatted lookup -/

theorem find?_setValueIn (name : String) (x : Dbl) (ms : List RideMetric) (m : RideMetric)
    (hm : ms.find? (fun y => y.symbol == name) = some m) :
    (RideMetricFactory.setValueIn name x ms).find? (fun y => y.symbol == name) =
      some (m.setValue x) := by
  induction ms with
  | nil => simp at hm
  | cons y ys ih =>
    unfold RideMetricFactory.setValueIn
    by_cases hy : (y.symbol == name) = true
    · have hym : y = m := by simpa [List.find?_cons, hy] using hm
      subst hym
      have hy2 : ((y.setValue x).symbol == name) = true := hy
      simp [hy, List.find?_cons, hy2]
    · have hy2 : (y.symbol == name) = false := by simpa using hy
      have hm2 : ys.find? (fun y => y.symbol == name) = some m := by
        simpa [List.find?_cons, hy2] using hm
      simp only [hy2, List.find?_cons]
      simp only [Bool.false_eq_true, if_false, List.find?_cons, hy2]
      exact ih hm2

/-- After `setValue` through the registry, the lookup of the same symbol finds
the same metric object holding the new value. -/
theorem rideMetric_setValue (factory : RideMetricFactory) (name : String) (m : RideMetric)
    (x : Dbl) (hm : factory.rideMetric name = some m) :
    (factory.setValue name x).rideMetric name = some (m.setValue x) :=
  find?_setValueIn name x factory.metrics m hm

/-- C15: for a symbol present in the registry (descriptor `m`) and a cached
array holding `v` at the descriptor's index, `getStringForSymbol` returns the
descriptor's canonical formatting, in the requested unit system, of `v` with a
NaN or infinite `v` replaced by 0 first (`cleaned v`; that value is also
written into the registered metric object). The cached array is not modified:
the record is not written, and a metric-units `getForSymbol` after the call
still returns `v`. -/
theorem C15_getStringForSymbol_format (w : World) (it : IntervalItem) (name : String)
    (m : RideMetric) (v : Dbl) (useMetricUnits : Bool)
    (hm : w.factory.rideMetric name = some m) (hv : it.metrics_[m.index]? = some v) :
    getStringForSymbol w it name useMetricUnits =
      some ({ w with factory := w.factory.setValue name (cleaned v) },
            m.format useMetricUnits (cleaned v)) ∧
    cleaned v = (if v.isinf || v.isnan then Dbl.zero else v) ∧
    (∀ w1 text, getStringForSymbol w it name useMetricUnits = some (w1, text) →
      getForSymbol w1 it name true = some (w1, v)) := by
  have hne : it.metrics_.length ≠ 0 := by
    intro h0
    rw [List.length_eq_zero.1 h0] at hv
    simp at hv
  have h1 : getStringForSymbol w it name useMetricUnits =
      some ({ w with factory := w.factory.setValue name (cleaned v) },
            m.format useMetricUnits (cleaned v)) := by
    simp [getStringForSymbol, hne, hm, hv, RideMetric.toString, RideMetric.setValue, cleaned]
  refine ⟨h1, rfl, ?_⟩
  intro w1 text h2
  rw [h1] at h2
  simp only [Option.some.injEq, Prod.mk.injEq] at h2
  rw [← h2.1]
  have hm2 := rideMetric_setValue w.factory name m (cleaned v) hm
  simp [getForSymbol, hne, hm2, RideMetric.setValue, hv]

/-- C15 at a concrete input: the cached value at the index of `distance_mi` is
`+inf`; the text is the formatting of 0 in imperial units, and the cache still
holds `+inf`. -/
theorem C15_getStringForSymbol_format_witness :
    (getStringForSymbol sampleWorld
        { sampleItem 0 (Dbl.fin 2) (Dbl.fin 5) with metrics_ := [Dbl.fin 250, Dbl.pinf] }
        "distance_mi" false =
      some ({ sampleWorld with
              factory := sampleWorld.factory.setValue "distance_mi" (cleaned Dbl.pinf) },
            distanceMi.format false (cleaned Dbl.pinf)) ∧
     cleaned Dbl.pinf = (if Dbl.pinf.isinf || Dbl.pinf.isnan then Dbl.zero else Dbl.pinf) ∧
     (∀ w1 text, getStringForSymbol sampleWorld
          { sampleItem 0 (Dbl.fin 2) (Dbl.fin 5) with metrics_ := [Dbl.fin 250, Dbl.pinf] }
          "distance_mi" false = some (w1, text) →
        getForSymbol w1
          { sampleItem 0 (Dbl.fin 2) (Dbl.fin 5) with metrics_ := [Dbl.fin 250, Dbl.pinf] }
          "distance_mi" true = some (w1, Dbl.pinf))) ∧
    (getStringForSymbol sampleWorld
        { sampleItem 0 (Dbl.fin 2) (Dbl.fin 5) with metrics_ := [Dbl.fin 250, Dbl.pinf] }
        "distance_mi" false).map (fun r => r.2) = some "finite mi" ∧
    cleaned Dbl.pinf = Dbl.fin 0 ∧
    distanceMi.format false (Dbl.fin 0) = "finite mi" :=
  ⟨C15_getStringForSymbol_format sampleWorld
      { sampleItem 0 (Dbl.fin 2) (Dbl.fin 5) with metrics_ := [Dbl.fin 250, Dbl.pinf] }
      "distance_mi" distanceMi Dbl.pinf false (by with_unfolding_all rfl) rfl,
   by decide!, by decide!, by decide!⟩

/-! ## Copies, recomputation and the frame of `refresh` -/

/-- C16: after `c.setFrom(other)`, for every `other` (also a `USER` interval
linked to a persisted bound record) and all arguments, `c.setValues(...)`
leaves the whole program state as it was: no persisted bound record is
modified (the record linked to `other` keeps its start and stop) and no
activity is marked dirty; and the call returns when `other` is attached to an
activity and the computed indices are inside the array. -/
theorem C16_copy_not_write_through (cm : ComputeMetrics) (w : World)
    (this other : IntervalItem) (name : String) (d1 d2 k1 k2 : Dbl) (a : Nat) (item : RideItem)
    (hptr : other.rideItem_ = some a) (hitem : w.rideItems[a]? = some item)
    (hidx : ∀ f, item.ride_ = some f → (intervalRide f d1 d2).dataPoints ≠ [] →
      ∀ e ∈ cm item.context (intervalRide f d1 d2) item.context.athlete.zones
          item.context.athlete.hrZones w.factory.allMetrics,
        e.2.index < w.factory.metricCount) :
    (∃ it1, setValues cm w (setFrom this other) name d1 d2 k1 k2 = some (w, it1)) ∧
    (∀ w1 it1, setValues cm w (setFrom this other) name d1 d2 k1 k2 = some (w1, it1) →
      w1 = w ∧ w1.rideIntervals = w.rideIntervals ∧ w1.rideItems = w.rideItems) := by
  have hu := setValuesUpdate_unlinked w (setFrom this other) name d1 d2 k1 k2 (Or.inr rfl)
  obtain ⟨m, hm⟩ := refresh_returns cm w
    { setFrom this other with name := name, start := d1, stop := d2, startKM := k1,
                              stopKM := k2 }
    a item hptr hitem hidx
  have hex : ∃ it1, setValues cm w (setFrom this other) name d1 d2 k1 k2 = some (w, it1) :=
    ⟨_, by simp only [setValues, hu]; exact hm⟩
  obtain ⟨it0, hcall⟩ := hex
  refine ⟨⟨it0, hcall⟩, ?_⟩
  intro w1 it1 h1
  rw [hcall] at h1
  simp only [Option.some.injEq, Prod.mk.injEq] at h1
  rw [← h1.1]
  exact ⟨rfl, rfl, rfl⟩

/-- C16 at a concrete input: a default-constructed record copies the linked
`USER` record and then gets the bounds `[1, 4)`: the persisted bound record 0
keeps start 0 and stop 9 and no activity is dirty (the same call on the
original, in C8, changes both). -/
theorem C16_copy_not_write_through_witness :
    ((∃ it1, setValues sampleCompute sampleWorld
          (setFrom (IntervalItem.constructDefault sampleFactory true none) linkedItem)
          "climb" (Dbl.fin 1) (Dbl.fin 4) (Dbl.fin 7) (Dbl.fin 8) = some (sampleWorld, it1)) ∧
     (∀ w1 it1, setValues sampleCompute sampleWorld
          (setFrom (IntervalItem.constructDefault sampleFactory true none) linkedItem)
          "climb" (Dbl.fin 1) (Dbl.fin 4) (Dbl.fin 7) (Dbl.fin 8) = some (w1, it1) →
        w1 = sampleWorld ∧ w1.rideIntervals = sampleWorld.rideIntervals ∧
        w1.rideItems = sampleWorld.rideItems)) ∧
    (setValues sampleCompute sampleWorld
        (setFrom (IntervalItem.constructDefault sampleFactory true none) linkedItem)
        "climb" (Dbl.fin 1) (Dbl.fin 4) (Dbl.fin 7) (Dbl.fin 8)).map
      (fun r => (r.1.rideIntervals, r.1.rideItems.map (fun i => i.isdirty))) =
      some ([{ type := IntervalType.USER, start := Dbl.fin 0, stop := Dbl.fin 9,
               name := "lap" }],
            [false, false, false]) :=
  ⟨C16_copy_not_write_through sampleCompute sampleWorld
      (IntervalItem.constructDefault sampleFactory true none) linkedItem
      "climb" (Dbl.fin 1) (Dbl.fin 4) (Dbl.fin 7) (Dbl.fin 8) 0
      { ride_ := some tenSamples, context := sampleContext, isdirty := false } rfl rfl
      (by
        intro f _ _ e he
        simp only [sampleCompute, List.mem_cons, List.mem_singleton, List.not_mem_nil,
          or_false] at he
        rcases he with rfl | rfl <;>
          simp [sampleWorld, sampleFactory, RideMetricFactory.metricCount, distanceMi,
            avgPower, RideMetric.setValue]),
   by decide!⟩

/-- The record that `refresh` produces depends on the program state only
through the registry and the sample data and context of the activity the
record is attached to. -/
theorem refresh_record_congr (cm : ComputeMetrics) (w w' : World) (it : IntervalItem)
    (a : Nat) (item item' : RideItem) (hptr : it.rideItem_ = some a)
    (hitem : w.rideItems[a]? = some item) (hitem' : w'.rideItems[a]? = some item')
    (hride : item'.ride_ = item.ride_) (hctx : item'.context = item.context)
    (hfac : w'.factory = w.factory) :
    (refresh cm w' it).map (fun r => r.2) = (refresh cm w it).map (fun r => r.2) := by
  cases hr : item.ride_ with
  | none =>
    rw [refresh_noop cm w it a item hptr hitem (Or.inl hr),
      refresh_noop cm w' it a item' hptr hitem' (Or.inl (hride.trans hr))]
    rfl
  | some f =>
    by_cases hnil : (intervalRide f it.start it.stop).dataPoints = []
    · rw [refresh_noop cm w it a item hptr hitem (Or.inr ⟨f, hr, hnil⟩),
        refresh_noop cm w' it a item' hptr hitem' (Or.inr ⟨f, hride.trans hr, hnil⟩)]
      rfl
    · rw [refresh_recompute cm w it a item f hptr hitem hr hnil,
        refresh_recompute cm w' it a item' f hptr hitem' (hride.trans hr) hnil, hctx, hfac]
      simp [Option.map_map, Function.comp_def]

/-- C17: for every record (whose link, when it is a linked `USER` interval,
points to a persisted bound record) and all arguments, the record after
`setValues(name, s, e, skm, ekm)`, so in particular its cached array, is the
record obtained by setting the name and bounds and then calling `refresh()`;
and it does not depend on the bounds the record had before the call. -/
theorem C17_setValues_recomputes (cm : ComputeMetrics) (w : World) (it : IntervalItem)
    (name : String) (s e skm ekm : Dbl)
    (hlink : it.type = IntervalType.USER → ∀ b, it.rideInterval = some b →
      ∃ rideInterval, w.rideIntervals[b]? = some rideInterval) :
    (setValues cm w it name s e skm ekm).map (fun r => r.2) =
      (setBoundsThenRefresh cm w it name s e skm ekm).map (fun r => r.2) ∧
    (setValues cm w it name s e skm ekm).map (fun r => r.2.metrics_) =
      (setBoundsThenRefresh cm w it name s e skm ekm).map (fun r => r.2.metrics_) ∧
    (∀ s0 e0 skm0 ekm0,
      setValues cm w { it with start := s0, stop := e0, startKM := skm0, stopKM := ekm0 }
        name s e skm ekm = setValues cm w it name s e skm ekm) := by
  have hmain : (setValues cm w it name s e skm ekm).map (fun r => r.2) =
      (setBoundsThenRefresh cm w it name s e skm ekm).map (fun r => r.2) := by
    by_cases hl : it.type ≠ IntervalType.USER ∨ it.rideInterval = none
    · simp only [setValues, setBoundsThenRefresh,
        setValuesUpdate_unlinked w it name s e skm ekm hl]
    · rw [not_or, not_not] at hl
      obtain ⟨ht, hb⟩ := hl
      obtain ⟨b, hb⟩ := Option.ne_none_iff_exists'.1 hb
      obtain ⟨rideInterval, hrec⟩ := hlink ht b hb
      cases ha : it.rideItem_ with
      | none => simp [setValues, setBoundsThenRefresh, setValuesUpdate, ht, hb, hrec, ha, refresh]
      | some a =>
        cases hitem : w.rideItems[a]? with
        | none =>
          simp [setValues, setBoundsThenRefresh, setValuesUpdate, ht, hb, hrec, ha, hitem,
            refresh]
        | some item =>
          have hu := setValuesUpdate_linked w it name s e skm ekm a b rideInterval item ht hb
            hrec ha hitem
          have halen : a < w.rideItems.length := (List.getElem?_eq_some.1 hitem).1
          simp only [setValues, setBoundsThenRefresh, hu]
          exact refresh_record_congr cm w
            { w with
              rideIntervals := w.rideIntervals.set b { rideInterval with start := s, stop := e },
              rideItems := w.rideItems.set a (item.setDirty true) }
            { it with name := name, start := s, stop := e, startKM := skm, stopKM := ekm }
            a item (item.setDirty true) ha hitem (List.getElem?_set_self halen) rfl rfl rfl
  refine ⟨hmain, ?_, fun _ _ _ _ => rfl⟩
  have h2 := congrArg (Option.map (fun r : IntervalItem => r.metrics_)) hmain
  simpa [Option.map_map, Function.comp_def] using h2

/-- C17 at a concrete input: the linked `USER` record with the old bounds
`[2, 5)` gets the bounds `[2, 3)`, a slice of one sample: both `setValues` and
"set the bounds, then refresh" give the cache `[200, 0]` of the new slice. -/
theorem C17_setValues_recomputes_witness :
    ((setValues sampleCompute sampleWorld linkedItem "short"
          (Dbl.fin 2) (Dbl.fin 3) (Dbl.fin 7) (Dbl.fin 8)).map (fun r => r.2) =
        (setBoundsThenRefresh sampleCompute sampleWorld linkedItem "short"
          (Dbl.fin 2) (Dbl.fin 3) (Dbl.fin 7) (Dbl.fin 8)).map (fun r => r.2) ∧
     (setValues sampleCompute sampleWorld linkedItem "short"
          (Dbl.fin 2) (Dbl.fin 3) (Dbl.fin 7) (Dbl.fin 8)).map (fun r => r.2.metrics_) =
        (setBoundsThenRefresh sampleCompute sampleWorld linkedItem "short"
          (Dbl.fin 2) (Dbl.fin 3) (Dbl.fin 7) (Dbl.fin 8)).map (fun r => r.2.metrics_) ∧
     (∀ s0 e0 skm0 ekm0,
       setValues sampleCompute sampleWorld
          { linkedItem with start := s0, stop := e0, startKM := skm0, stopKM := ekm0 }
          "short" (Dbl.fin 2) (Dbl.fin 3) (Dbl.fin 7) (Dbl.fin 8) =
        setValues sampleCompute sampleWorld linkedItem "short"
          (Dbl.fin 2) (Dbl.fin 3) (Dbl.fin 7) (Dbl.fin 8))) ∧
    (setValues sampleCompute sampleWorld linkedItem "short"
        (Dbl.fin 2) (Dbl.fin 3) (Dbl.fin 7) (Dbl.fin 8)).map (fun r => r.2.metrics_) =
      some [Dbl.fin 200, Dbl.fin 0] ∧
    (refresh sampleCompute sampleWorld linkedItem).map (fun r => r.2.metrics_) =
      some [Dbl.fin 200, Dbl.fin 3] :=
  ⟨C17_setValues_recomputes sampleCompute sampleWorld linkedItem "short"
      (Dbl.fin 2) (Dbl.fin 3) (Dbl.fin 7) (Dbl.fin 8)
      (fun _ b hb => by cases hb; exact ⟨_, rfl⟩),
   by decide!, by decide!⟩

/-- C18: a `refresh()` that returns changes at most the cached array: the
record's name, type, start, stop, startKM, stopKM, colour, display order,
selection flag, persisted-bound link and back-references are as before, and
the whole program state (the persisted bound records, the activities with
their dirty flags and their sample sequences, the registry) is as before. -/
theorem C18_refresh_frame (cm : ComputeMetrics) (w w1 : World) (it it1 : IntervalItem)
    (h : refresh cm w it = some (w1, it1)) :
    it1.name = it.name ∧ it1.type = it.type ∧ it1.start = it.start ∧ it1.stop = it.stop ∧
    it1.startKM = it.startKM ∧ it1.stopKM = it.stopKM ∧ it1.color = it.color ∧
    it1.displaySequence = it.displaySequence ∧ it1.selected = it.selected ∧
    it1.rideInterval = it.rideInterval ∧ it1.rideItem_ = it.rideItem_ ∧ it1.ride = it.ride ∧
    w1 = w ∧ w1.rideIntervals = w.rideIntervals ∧ w1.rideItems = w.rideItems ∧
    w1.factory = w.factory := by
  obtain ⟨hw, hit⟩ := refresh_frame cm w w1 it it1 h
  rw [hw, hit]
  exact ⟨rfl, rfl, rfl, rfl, rfl, rfl, rfl, rfl, rfl, rfl, rfl, rfl, rfl, rfl, rfl, rfl⟩

/-- C18 at a concrete input: refreshing the selected, linked `USER` record for
the bounds `[2, 5)` over the ten samples replaces the cache `[7, 8]` by
`[200, 3]` and changes nothing else. -/
theorem C18_refresh_frame_witness :
    refresh sampleCompute sampleWorld
        { linkedItem with selected := true, metrics_ := [Dbl.fin 7, Dbl.fin 8] } =
      some (sampleWorld,
        { linkedItem with selected := true, metrics_ := [Dbl.fin 200, Dbl.fin 3] }) ∧
    ("effort" = linkedItem.name ∧ IntervalType.USER = linkedItem.type ∧
     Dbl.fin 2 = linkedItem.start ∧ Dbl.fin 5 = linkedItem.stop ∧
     Dbl.fin 0 = linkedItem.startKM ∧ Dbl.fin 1 = linkedItem.stopKM ∧
     255 = linkedItem.color ∧ 1 = linkedItem.displaySequence ∧ true = true ∧
     some 0 = linkedItem.rideInterval ∧ some 0 = linkedItem.rideItem_ ∧
     none = linkedItem.ride ∧
     sampleWorld = sampleWorld ∧ sampleWorld.rideIntervals = sampleWorld.rideIntervals ∧
     sampleWorld.rideItems = sampleWorld.rideItems ∧
     sampleWorld.factory = sampleWorld.factory) :=
  ⟨refresh_eq_of_record _ _ _ _ (by decide!),
   C18_refresh_frame sampleCompute sampleWorld sampleWorld
     { linkedItem with selected := true, metrics_ := [Dbl.fin 7, Dbl.fin 8] }
     { linkedItem with selected := true, metrics_ := [Dbl.fin 200, Dbl.fin 3] }
     (refresh_eq_of_record _ _ _ _ (by decide!))⟩

/-! ## Index safety -/

/-- The indexed loop, started inside the vector with enough fuel, never reads
outside the vector and computes what the list recursion computes. -/
theorem refreshLoopAt_eq (f : RideFile) (stop : Dbl) (fuel : Nat) (i : Int) (acc : RideFile)
    (h0 : 0 ≤ i) (hi : i.toNat ≤ f.dataPoints.length)
    (hfuel : f.dataPoints.length + 1 ≤ fuel + i.toNat) :
    refreshLoopAt f stop fuel i acc =
      some (refreshLoop f.recIntSecs stop (f.dataPoints.drop i.toNat) acc) := by
  induction fuel generalizing i acc with
  | zero => omega
  | succ fuel ih =>
    unfold refreshLoopAt
    by_cases hlt : i.toNat < f.dataPoints.length
    · have hguard : 0 ≤ i ∧ i < (f.dataPoints.length : Int) := ⟨h0, by omega⟩
      have hread : atIndex f.dataPoints i = some f.dataPoints[i.toNat] := by
        simp [atIndex, h0, List.getElem?_eq_getElem hlt]
      have hdrop : f.dataPoints.drop i.toNat =
          f.dataPoints[i.toNat] :: f.dataPoints.drop (i.toNat + 1) :=
        List.drop_eq_getElem_cons hlt
      rw [if_pos hguard, hread, hdrop]
      by_cases hgt : Dbl.gt (Dbl.add f.dataPoints[i.toNat].secs f.recIntSecs) stop = true
      · simp [refreshLoop, hgt]
      · have hsucc : (i + 1).toNat = i.toNat + 1 := by omega
        simp only [hgt, refreshLoop]
        rw [ih (i + 1) _ (by omega) (by omega) (by omega), hsucc]
        rfl
    · have hguard : ¬ (0 ≤ i ∧ i < (f.dataPoints.length : Int)) := by omega
      have hdrop : f.dataPoints.drop i.toNat = [] := List.drop_of_length_le (by omega)
      rw [if_neg hguard, hdrop]
      rfl

/-- The indexed loop of `refresh`, with its checked reads, returns the
temporary ride for every sample vector and all bounds. -/
theorem intervalRideChecked_eq (f : RideFile) (start stop : Dbl) :
    intervalRideChecked f start stop = some (intervalRide f start stop) := by
  unfold intervalRideChecked intervalRide
  by_cases h0 : 0 ≤ f.intervalBeginSecs start
  · by_cases hi : (f.intervalBeginSecs start).toNat ≤ f.dataPoints.length
    · rw [refreshLoopAt_eq f stop _ _ _ h0 hi (by omega)]
      simp [h0]
    · have hguard : ¬ (0 ≤ f.intervalBeginSecs start ∧
          f.intervalBeginSecs start < (f.dataPoints.length : Int)) := by omega
      have hdrop : f.dataPoints.drop (f.intervalBeginSecs start).toNat = [] :=
        List.drop_of_length_le (by omega)
      unfold refreshLoopAt
      rw [if_neg hguard, if_pos h0, hdrop]
      rfl
  · have hguard : ¬ (0 ≤ f.intervalBeginSecs start ∧
        f.intervalBeginSecs start < (f.dataPoints.length : Int)) := by omega
    unfold refreshLoopAt
    rw [if_neg hguard, if_neg h0]

/-- C19: with a registry of `n` metrics in which every metric descriptor has
`index() < metricCount`, and a metric computation whose results all have
`index() < metricCount`, for every record reachable from a constructor by
`setFrom`, `setValues` and `refresh` every array access is within bounds: the
indexed loop of `refresh` with its checked reads `f->dataPoints()[i]` returns
the temporary ride; `refresh` on a record attached to an activity returns (its
writes `metrics_[index]` and the reads of its cleaning loop are inside the
array); and `getForSymbol` and `getStringForSymbol` return for every symbol and
either unit choice (their reads `metrics_[m->index()]` are inside the array). -/
theorem C19_index_safety (n : Nat) (it : IntervalItem)
    (hreach : Reachable (fun factory => factory.metricCount = n) it)
    (cm : ComputeMetrics) (w : World) (hn : w.factory.metricCount = n)
    (hreg : ∀ m ∈ w.factory.metrics, m.index < w.factory.metricCount)
    (hcomp : ∀ ctx ride zones hrZones names, ∀ e ∈ cm ctx ride zones hrZones names,
      e.2.index < w.factory.metricCount) :
    (∀ f start stop, intervalRideChecked f start stop = some (intervalRide f start stop)) ∧
    (∀ a item, it.rideItem_ = some a → w.rideItems[a]? = some item →
      ∃ m, refresh cm w it = some (w, { it with metrics_ := m })) ∧
    (∀ name useMetricUnits, ∃ r, getForSymbol w it name useMetricUnits = some r) ∧
    (∀ name useMetricUnits, ∃ r, getStringForSymbol w it name useMetricUnits = some r) := by
  have hlen : it.metrics_.length = w.factory.metricCount := by
    rw [hn]
    exact reachable_length n it hreach
  have hread : ∀ name m, w.factory.rideMetric name = some m →
      ∃ v, it.metrics_[m.index]? = some v := by
    intro name m hm
    have hmem : m ∈ w.factory.metrics := List.mem_of_find?_eq_some hm
    have hlt : m.index < it.metrics_.length := by
      rw [hlen]
      exact hreg m hmem
    exact ⟨_, List.getElem?_eq_getElem hlt⟩
  refine ⟨intervalRideChecked_eq, ?_, ?_, ?_⟩
  · intro a item hptr hitem
    exact refresh_returns cm w it a item hptr hitem (fun f _ _ e he => hcomp _ _ _ _ _ e he)
  · intro name u
    by_cases hne : it.metrics_.length = 0
    · simp [getForSymbol, hne]
    · cases hm : w.factory.rideMetric name with
      | none => simp [getForSymbol, hne, hm]
      | some m =>
        obtain ⟨v, hv⟩ := hread name m hm
        cases u with
        | true => simp [getForSymbol, hne, hm, hv]
        | false => simp [getForSymbol, hne, hm, hv]
  · intro name u
    by_cases hne : it.metrics_.length = 0
    · simp [getStringForSymbol, hne]
    · cases hm : w.factory.rideMetric name with
      | none => simp [getStringForSymbol, hne, hm]
      | some m =>
        obtain ⟨v, hv⟩ := hread name m hm
        simp [getStringForSymbol, hne, hm, hv]

/-- C19 at a concrete input: the registry of two metrics with indices 0 and 1,
the computation with results at indices 0 and 1, and the record constructed and
attached to the ten samples for the bounds `[2, 5)`. -/
theorem C19_index_safety_witness :
    Reachable (fun factory => factory.metricCount = 2) (sampleItem 0 (Dbl.fin 2) (Dbl.fin 5)) ∧
    sampleWorld.factory.metricCount = 2 ∧
    ((∀ f start stop, intervalRideChecked f start stop = some (intervalRide f start stop)) ∧
     (∀ a item, (sampleItem 0 (Dbl.fin 2) (Dbl.fin 5)).rideItem_ = some a →
        sampleWorld.rideItems[a]? = some item →
        ∃ m, refresh sampleCompute sampleWorld (sampleItem 0 (Dbl.fin 2) (Dbl.fin 5)) =
          some (sampleWorld, { sampleItem 0 (Dbl.fin 2) (Dbl.fin 5) with metrics_ := m })) ∧
     (∀ name useMetricUnits, ∃ r,
        getForSymbol sampleWorld (sampleItem 0 (Dbl.fin 2) (Dbl.fin 5)) name useMetricUnits =
          some r) ∧
     (∀ name useMetricUnits, ∃ r,
        getStringForSymbol sampleWorld (sampleItem 0 (Dbl.fin 2) (Dbl.fin 5)) name
          useMetricUnits = some r)) ∧
    (intervalRideChecked tenSamples (Dbl.fin 2) (Dbl.fin 5)).map
        (fun r => r.dataPoints.map (fun p => p.secs)) =
      some [Dbl.fin 2, Dbl.fin 3, Dbl.fin 4] :=
  ⟨Reachable.attach _ (some 0) none (Reachable.construct _ _ _ _ _ _ _ _ _ _ rfl),
   rfl,
   C19_index_safety 2 (sampleItem 0 (Dbl.fin 2) (Dbl.fin 5))
     (Reachable.attach _ (some 0) none (Reachable.construct _ _ _ _ _ _ _ _ _ _ rfl))
     sampleCompute sampleWorld rfl
     (by
       intro m hm
       simp only [sampleWorld, sampleFactory, List.mem_cons, List.mem_singleton,
         List.not_mem_nil, or_false] at hm
       rcases hm with rfl | rfl <;>
         simp [sampleWorld, sampleFactory, RideMetricFactory.metricCount, distanceMi, avgPower])
     (by
       intro _ ride _ _ _ e he
       simp only [sampleCompute, List.mem_cons, List.mem_singleton, List.not_mem_nil,
         or_false] at he
       rcases he with rfl | rfl <;>
         simp [sampleWorld, sampleFactory, RideMetricFactory.metricCount, distanceMi,
           avgPower, RideMetric.setValue]),
   by decide!⟩

end GoldenCheetah
